import Mathlib

/-!
Verification of the oxide_msg messaging layer.

Shallow embedding of the `oxide_msg` Rust crate: the `Message` envelope
(`src/message.rs`), its JSON wire encoding (the serde_json serializer and
parser, restricted to the structured-value fragment the envelope uses:
null, booleans, integer numbers, strings, arrays, string-keyed maps;
floating-point numbers are outside the model), the error type
(`src/error.rs`), and the three socket patterns (`src/patterns/*.rs`)
over an explicit-state model of the ZeroMQ transport collaborator.

Bytes on the wire are modelled as lists of unicode scalar values
(`List Char`); the UTF-8 framing of the wire format is order- and
content-preserving, so nothing the claims speak about depends on it.
-/

/-! ## Characters used by the JSON syntax -/

abbrev qu : Char := Char.ofNat 34

abbrev bsl : Char := Char.ofNat 92

abbrev lbrace : Char := Char.ofNat 123

abbrev rbrace : Char := Char.ofNat 125

abbrev lbrack : Char := Char.ofNat 91

abbrev rbrack : Char := Char.ofNat 93

abbrev comma : Char := Char.ofNat 44

abbrev colonC : Char := Char.ofNat 58

/-! ## The structured payload value (serde_json::Value, integer fragment) -/

/-- Model of `serde_json::Value` as used for `Message.payload`.
Numbers cover the `u64`/`i64` arms of `serde_json::Number`; the `f64` arm
(floating point) is outside the model.  Objects model `BTreeMap` contents
as an association list in key order. -/
inductive Json where
  | null
  | bool (b : Bool)
  | num (n : Int)
  | str (s : List Char)
  | arr (elems : List Json)
  | obj (fields : List (List Char × Json))

/-! ## Printing (serde_json::to_vec, compact form) -/

/-- Digit characters of `n`, least significant first; `fuel ≥ n` suffices. -/
def ndr : Nat → Nat → List Char
  | 0, _ => []
  | fuel+1, n => if n = 0 then [] else Nat.digitChar (n % 10) :: ndr fuel (n / 10)

/-- Decimal printing of a natural number, as serde_json prints `u64`. -/
def printNat (n : Nat) : List Char := if n = 0 then ['0'] else (ndr n n).reverse

/-- Decimal printing of an integer, as serde_json prints `u64`/`i64`. -/
def printInt (n : Int) : List Char :=
  if n < 0 then '-' :: printNat n.natAbs else printNat n.toNat

/-- serde_json's string escaping of one character: `"`, `\`, and the
controls below 0x20 are escaped (`\b \t \n \f \r` or `\u00XX`), everything
else is emitted verbatim. -/
def escChar (c : Char) : List Char :=
  if c = qu then [bsl, qu]
  else if c = bsl then [bsl, bsl]
  else if c.toNat = 8 then [bsl, 'b']
  else if c.toNat = 9 then [bsl, 't']
  else if c.toNat = 10 then [bsl, 'n']
  else if c.toNat = 12 then [bsl, 'f']
  else if c.toNat = 13 then [bsl, 'r']
  else if c.toNat < 32 then
    [bsl, 'u', '0', '0', Nat.digitChar (c.toNat / 16), Nat.digitChar (c.toNat % 16)]
  else [c]

def escStr : List Char → List Char
  | [] => []
  | c :: t => escChar c ++ escStr t

/-- The keyword literals of the JSON grammar. -/
abbrev nullTok : List Char := ['n', 'u', 'l', 'l']

abbrev trueTok : List Char := ['t', 'r', 'u', 'e']

abbrev falseTok : List Char := ['f', 'a', 'l', 's', 'e']

mutual
/-- serde_json compact printing of a value (`serde_json::to_vec`). -/
def printJson : Json → List Char
  | .null => nullTok
  | .bool true => trueTok
  | .bool false => falseTok
  | .num n => printInt n
  | .str s => qu :: escStr s ++ [qu]
  | .arr xs => lbrack :: printElems xs ++ [rbrack]
  | .obj kvs => lbrace :: printFields kvs ++ [rbrace]

def printElems : List Json → List Char
  | [] => []
  | [x] => printJson x
  | x :: y :: t => printJson x ++ comma :: printElems (y :: t)

def printFields : List (List Char × Json) → List Char
  | [] => []
  | [(k, v)] => qu :: escStr k ++ qu :: colonC :: printJson v
  | (k, v) :: f :: t =>
    (qu :: escStr k ++ qu :: colonC :: printJson v) ++ comma :: printFields (f :: t)
end

/-! ## Parsing (serde_json::from_slice, integer fragment) -/

/-- JSON whitespace accepted by serde_json: space, tab, LF, CR. -/
def isWs (c : Char) : Bool := c.toNat = 32 || c.toNat = 9 || c.toNat = 10 || c.toNat = 13

def skipWs : List Char → List Char
  | [] => []
  | c :: t => if isWs c then skipWs t else c :: t

def expectLit : List Char → List Char → Option (List Char)
  | [], cs => some cs
  | l :: ls, c :: cs => if c = l then expectLit ls cs else none
  | _ :: _, [] => none

def hexVal (c : Char) : Option Nat :=
  if c.isDigit then some (c.toNat - 48)
  else if 97 ≤ c.toNat ∧ c.toNat ≤ 102 then some (c.toNat - 87)
  else if 65 ≤ c.toNat ∧ c.toNat ≤ 70 then some (c.toNat - 55)
  else none

/-- Valid unicode scalar value (what a `\uXXXX` escape may denote in the
model; serde_json additionally combines surrogate pairs, which the model
rejects — the printer never emits them). -/
def validCp (n : Nat) : Bool := n < 55296 || (57343 < n && n < 1114112)

/-- Body of a JSON string after the opening quote, as serde_json reads it:
ends at the unescaped closing quote, handles the escape sequences, rejects
raw control characters.  `fuel` bounds the number of steps; one step
consumes at least one input character, so any fuel above the input length
is immaterial (call sites pass `length + 1`). -/
def parseStrBody : Nat → List Char → Option (List Char × List Char)
  | 0, _ => none
  | fuel+1, cs =>
    match cs with
    | [] => none
    | c :: rest =>
      if c = qu then some ([], rest)
      else if c = bsl then
        match rest with
        | [] => none
        | e :: rest2 =>
          if e = qu then (parseStrBody fuel rest2).map (fun p => (qu :: p.1, p.2))
          else if e = bsl then (parseStrBody fuel rest2).map (fun p => (bsl :: p.1, p.2))
          else if e = '/' then (parseStrBody fuel rest2).map (fun p => ('/' :: p.1, p.2))
          else if e = 'b' then
            (parseStrBody fuel rest2).map (fun p => (Char.ofNat 8 :: p.1, p.2))
          else if e = 'f' then
            (parseStrBody fuel rest2).map (fun p => (Char.ofNat 12 :: p.1, p.2))
          else if e = 'n' then
            (parseStrBody fuel rest2).map (fun p => (Char.ofNat 10 :: p.1, p.2))
          else if e = 'r' then
            (parseStrBody fuel rest2).map (fun p => (Char.ofNat 13 :: p.1, p.2))
          else if e = 't' then
            (parseStrBody fuel rest2).map (fun p => (Char.ofNat 9 :: p.1, p.2))
          else if e = 'u' then
            match rest2 with
            | h1 :: h2 :: h3 :: h4 :: rest3 =>
              match hexVal h1, hexVal h2, hexVal h3, hexVal h4 with
              | some a, some b, some c2, some d =>
                let code := ((a * 16 + b) * 16 + c2) * 16 + d
                if validCp code then
                  (parseStrBody fuel rest3).map (fun p => (Char.ofNat code :: p.1, p.2))
                else none
              | _, _, _, _ => none
            | _ => none
          else none
      else if c.toNat < 32 then none
      else (parseStrBody fuel rest).map (fun p => (c :: p.1, p.2))

def takeDigits : List Char → List Char × List Char
  | [] => ([], [])
  | c :: t =>
    if c.isDigit then
      let p := takeDigits t
      (c :: p.1, p.2)
    else ([], c :: t)

def digitVal (c : Char) : Nat := c.toNat - 48

def digitsToNat (ds : List Char) : Nat := ds.foldl (fun a c => 10 * a + digitVal c) 0

/-- After the digits of a number, serde_json stops cleanly only when the
next character is not a digit and not the start of a fraction/exponent
(which would make the number a float, outside the model). -/
def numStop : List Char → Bool
  | [] => true
  | c :: _ => !(c.isDigit || c = '.' || c = 'e' || c = 'E')

/-- serde_json number parsing (integer fragment): an optional minus sign
has already been consumed; digits follow, with JSON's no-leading-zero
rule; values outside the `u64`/`i64` ranges fall to `f64` in serde_json
and are outside the model. -/
def parseNumTail (neg : Bool) (cs : List Char) : Option (Json × List Char) :=
  match cs with
  | [] => none
  | c :: t =>
    if ¬ c.isDigit then none
    else if c = '0' then
      if numStop t then some (.num 0, t) else none
    else
      let p := takeDigits (c :: t)
      if numStop p.2 then
        let k := digitsToNat p.1
        if neg then
          if k ≤ 2 ^ 63 then some (.num (-(k : Int)), p.2) else none
        else
          if k < 2 ^ 64 then some (.num (k : Int), p.2) else none
      else none

/-- Byte-wise lexicographic order on keys, the order `BTreeMap<String, _>`
uses (UTF-8 byte order coincides with scalar-value order). -/
def keyLt : List Char → List Char → Bool
  | [], [] => false
  | [], _ :: _ => true
  | _ :: _, [] => false
  | a :: as, b :: bs =>
    if a.toNat < b.toNat then true
    else if b.toNat < a.toNat then false
    else keyLt as bs

/-- Model of `BTreeMap::insert` on the association-list model: ordered insertion,
an existing binding for the key is replaced (later duplicate wins, as when
serde_json collects object entries into a map). -/
def mapInsert : List (List Char × Json) → List Char → Json → List (List Char × Json)
  | [], k, v => [(k, v)]
  | (k1, v1) :: t, k, v =>
    if keyLt k k1 then (k, v) :: (k1, v1) :: t
    else if k = k1 then (k, v) :: t
    else (k1, v1) :: mapInsert t k v

mutual
/-- One JSON value, serde_json grammar (integer fragment); `fuel` bounds
the recursion depth and is immaterial once large enough. -/
def parseVal : Nat → List Char → Option (Json × List Char)
  | 0, _ => none
  | fuel+1, cs =>
    match skipWs cs with
    | [] => none
    | c :: rest =>
      if c = 'n' then (expectLit ['u', 'l', 'l'] rest).map (fun r => (Json.null, r))
      else if c = 't' then (expectLit ['r', 'u', 'e'] rest).map (fun r => (Json.bool true, r))
      else if c = 'f' then (expectLit ['a', 'l', 's', 'e'] rest).map (fun r => (Json.bool false, r))
      else if c = qu then
        (parseStrBody (rest.length + 1) rest).map (fun p => (Json.str p.1, p.2))
      else if c = lbrack then
        match skipWs rest with
        | d :: r2 => if d = rbrack then some (Json.arr [], r2) else parseElems fuel rest []
        | [] => none
      else if c = lbrace then
        match skipWs rest with
        | d :: r2 => if d = rbrace then some (Json.obj [], r2) else parseFields fuel rest []
        | [] => none
      else if c = '-' then parseNumTail true rest
      else if c.isDigit then parseNumTail false (c :: rest)
      else none

/-- Array elements after `[`, at least one element. -/
def parseElems : Nat → List Char → List Json → Option (Json × List Char)
  | 0, _, _ => none
  | fuel+1, cs, acc =>
    match parseVal fuel cs with
    | none => none
    | some (v, r1) =>
      match skipWs r1 with
      | d :: r2 =>
        if d = comma then parseElems fuel r2 (acc ++ [v])
        else if d = rbrack then some (Json.arr (acc ++ [v]), r2)
        else none
      | [] => none

/-- Object entries after `{`, at least one entry; entries are collected
with `mapInsert` (the `BTreeMap` the deserialized `Value` holds). -/
def parseFields : Nat → List Char → List (List Char × Json) →
    Option (Json × List Char)
  | 0, _, _ => none
  | fuel+1, cs, acc =>
    match skipWs cs with
    | c :: r0 =>
      if c = qu then
        match parseStrBody (r0.length + 1) r0 with
        | none => none
        | some (k, r1) =>
          match skipWs r1 with
          | d :: r2 =>
            if d = colonC then
              match parseVal fuel r2 with
              | none => none
              | some (v, r3) =>
                match skipWs r3 with
                | e :: r4 =>
                  if e = comma then parseFields fuel r4 (mapInsert acc k v)
                  else if e = rbrace then some (Json.obj (mapInsert acc k v), r4)
                  else none
                | [] => none
            else none
          | [] => none
      else none
    | [] => none
end

/-- One complete document: a value followed only by whitespace
(`serde_json::from_slice` rejects trailing content). -/
def parseDoc (bs : List Char) : Option Json :=
  match parseVal (bs.length + 1) bs with
  | some (v, rest) => if (skipWs rest).isEmpty then some v else none
  | none => none


/-! ## Representable values

`wfJ` carves out exactly the `serde_json::Value`s the model represents
faithfully: numbers within the `u64`/`i64` arms, object association lists
that satisfy the `BTreeMap` invariant (strictly increasing keys). -/

/-- Strictly increasing keys, the `BTreeMap` representation invariant. -/
def sortedKeys : List (List Char × Json) → Bool
  | [] => true
  | [_] => true
  | (k1, _) :: (k2, v2) :: t => keyLt k1 k2 && sortedKeys ((k2, v2) :: t)

mutual
def wfJ : Json → Bool
  | .null => true
  | .bool _ => true
  | .str _ => true
  | .num n => decide (-(2 ^ 63 : Int) ≤ n ∧ n < 2 ^ 64)
  | .arr xs => wfList xs
  | .obj kvs => sortedKeys kvs && wfFieldsVals kvs

def wfList : List Json → Bool
  | [] => true
  | x :: xs => wfJ x && wfList xs

def wfFieldsVals : List (List Char × Json) → Bool
  | [] => true
  | (_, v) :: t => wfJ v && wfFieldsVals t
end

/-! ## The Message envelope (src/message.rs) and errors (src/error.rs) -/

/-- Model of `Message` from src/message.rs: a topic string plus a JSON payload. -/
structure Message where
  topic : List Char
  payload : Json

/-- Model of `zmq::Error` as the wrappers distinguish it: `EAGAIN` (would
block/timed out), `EFSM` (REQ/REP alternation violated), `EINVAL`
(invalid socket option value), or any other transport error code. -/
inductive ZmqErr where
  | eagain
  | efsm
  | einval
  | other (code : Nat)
deriving DecidableEq

/-- Model of `e.to_string()` of a `zmq::Error` (opaque text; only its identity as
a string matters to the wrappers). -/
def ZmqErr.msg : ZmqErr → String
  | .eagain => "Resource temporarily unavailable"
  | .efsm => "Operation cannot be accomplished in current state"
  | .einval => "Invalid argument"
  | .other _ => "Transport failure"

/-- Model of `OxideError` from src/error.rs. -/
inductive OxideError where
  | Zmq (e : ZmqErr)
  | Serialization (msg : String)
  | Configuration (msg : String)
  | Connection (msg : String)
  | Send (msg : String)
  | Receive (msg : String)

/-- The field names of the derived `Serialize`/`Deserialize` for `Message`. -/
def topicKey : List Char := ['t', 'o', 'p', 'i', 'c']

def payloadKey : List Char := ['p', 'a', 'y', 'l', 'o', 'a', 'd']

/-- The document `serde_json::to_vec(&Message)` writes: one object with
the two fields in declaration order, `topic` then `payload`. -/
def serializeMessage (m : Message) : List Char :=
  printJson (.obj [(topicKey, .str m.topic), (payloadKey, m.payload)])

/-- Model of `Message::to_bytes` (src/message.rs:35-37): `serde_json::to_vec` of a
struct whose leaves are a `String` and a `serde_json::Value` cannot hit
the serializer's error paths (non-string map keys, failing `io::Write`),
so the `map_err` branch producing `OxideError::Serialization` is present
but the result is always `Ok`. -/
def Message.to_bytes (m : Message) : Except OxideError (List Char) :=
  .ok (serializeMessage m)

/-- Field lookup in the parsed object (the derived `Deserialize` takes the
fields it knows and, by serde default, ignores unknown ones). -/
def getField : List (List Char × Json) → List Char → Option Json
  | [], _ => none
  | (k1, v1) :: t, k => if k = k1 then some v1 else getField t k

/-- Model of `Message::from_bytes` (src/message.rs:40-42): `serde_json::from_slice`;
every failure (malformed document, wrong shape, missing field, non-string
topic, trailing input) is mapped to `OxideError::Serialization`. -/
def Message.from_bytes (bs : List Char) : Except OxideError Message :=
  match parseDoc bs with
  | none => .error (.Serialization "expected value")
  | some (.obj kvs) =>
    match getField kvs topicKey, getField kvs payloadKey with
    | some (.str t), some p => .ok ⟨t, p⟩
    | _, _ => .error (.Serialization "missing or mistyped field")
  | some _ => .error (.Serialization "invalid type")

/-- Model of `Message::payload_as::<T>` (src/message.rs:45-48): `serde_json::from_value`
on a clone of the payload; `T`'s deserializer is abstracted as a function
`dec` that yields `none` exactly when the payload is structurally
incompatible with `T`, and that failure is mapped to
`OxideError::Serialization`. -/
def Message.payload_as {α : Type} (dec : Json → Option α) (m : Message) :
    Except OxideError α :=
  match dec m.payload with
  | some v => .ok v
  | none => .error (.Serialization "incompatible payload")

/-! ## The ZeroMQ transport collaborator

The spec treats the transport as an external collaborator (§1, §6); it is
modelled here with explicit socket state: the receive-timeout option set
by `set_rcvtimeo`, the SUB subscription list, the REQ/REP alternation
phase enforced by the transport, and the frames handed to `send`.
Whether a message arrives, times out, or the transport fails is the
environment's choice, passed in as an event. -/

inductive SocketKind where
  | push
  | pull
  | pubk
  | subk
  | req
  | rep
deriving DecidableEq

/-- REQ/REP strict-alternation phase kept by the transport itself. -/
inductive Phase where
  | ready
  | awaitingReply
  | awaitingSend
deriving DecidableEq

/-- One transport socket, as the pattern handles own it. `pending` holds
frames sent with `SNDMORE` that are not yet a complete message; `outbox`
the completed multipart messages, oldest first. -/
structure Socket where
  kind : SocketKind
  rcvtimeo : Int := -1
  subs : List (List Char) := []
  phase : Phase := .ready
  pending : List (List Char) := []
  outbox : List (List (List Char)) := []

/-- Model of `zmq_setsockopt(ZMQ_RCVTIMEO)`: any value ≥ -1 is accepted and stored
(-1 meaning block forever), anything else is EINVAL. -/
def setRcvtimeo (s : Socket) (ms : Int) : Except ZmqErr Socket :=
  if ms ≥ -1 then .ok { s with rcvtimeo := ms } else .error .einval

/-- Model of `set_subscribe`: registers one more prefix filter. -/
def setSubscribe (s : Socket) (t : List Char) : Except ZmqErr Socket :=
  .ok { s with subs := s.subs ++ [t] }

/-- Model of `set_unsubscribe`: removes one matching prefix filter. -/
def setUnsubscribe (s : Socket) (t : List Char) : Except ZmqErr Socket :=
  .ok { s with subs := s.subs.erase t }

/-- Environment's verdict on one `send` call: the transport accepts the
frame, or fails with some error. -/
inductive SendEvent where
  | accept
  | fault (e : ZmqErr)

/-- Environment's verdict on one `recv` call: a message's frame arrives in
time, the deadline expires / nothing is queued (surfaced by zmq as
EAGAIN), or the transport fails with some other error. -/
inductive RecvEvent where
  | deliver (bytes : List Char)
  | timeout
  | fault (e : ZmqErr)

/-- Model of `zmq_send`. REQ sockets may send only when not awaiting a reply and
move to `awaitingReply` once a complete message is sent; REP sockets may
send only after receiving a request. A frame sent with `more = true`
stays pending until the final frame completes the multipart message. -/
def zmqSend (s : Socket) (bytes : List Char) (more : Bool) (ev : SendEvent) :
    Except ZmqErr Unit × Socket :=
  if s.kind = .req ∧ s.phase ≠ .ready then (.error .efsm, s)
  else if s.kind = .rep ∧ s.phase ≠ .awaitingSend then (.error .efsm, s)
  else
    match ev with
    | .fault e => (.error e, s)
    | .accept =>
      if more then (.ok (), { s with pending := s.pending ++ [bytes] })
      else
        let s1 := { s with pending := [], outbox := s.outbox ++ [s.pending ++ [bytes]] }
        if s.kind = .req then (.ok (), { s1 with phase := .awaitingReply })
        else if s.kind = .rep then (.ok (), { s1 with phase := .ready })
        else (.ok (), s1)

/-- Model of `zmq_recv` (one frame, as `recv_bytes` uses it). REQ sockets may
receive only while awaiting a reply and return to `ready` on success; REP
sockets receiving a request move to `awaitingSend`. A `timeout` event is
zmq's EAGAIN: deadline expired (finite `rcvtimeo`) or, with `DONTWAIT`,
nothing queued. -/
def zmqRecv (s : Socket) (_dontwait : Bool) (ev : RecvEvent) :
    Except ZmqErr (List Char) × Socket :=
  if s.kind = .req ∧ s.phase ≠ .awaitingReply then (.error .efsm, s)
  else if s.kind = .rep ∧ s.phase ≠ .ready then (.error .efsm, s)
  else
    match ev with
    | .timeout => (.error .eagain, s)
    | .fault e => (.error e, s)
    | .deliver bytes =>
      if s.kind = .req then (.ok bytes, { s with phase := .ready })
      else if s.kind = .rep then (.ok bytes, { s with phase := .awaitingSend })
      else (.ok bytes, s)

/-- ZeroMQ SUB-side filtering: a published multipart message reaches a
subscriber iff some registered prefix is a prefix of the first frame; a
socket with no subscriptions receives nothing. -/
def subMatches (s : Socket) (msg : List (List Char)) : Bool :=
  s.subs.any (fun p => p.isPrefixOf (msg.headD []))

/-! ## Pipeline pattern (src/patterns/pipeline.rs) -/

/-- Model of `Pusher::push` (pipeline.rs:30-36). -/
def Pusher.push (s : Socket) (m : Message) (ev : SendEvent) :
    Except OxideError Unit × Socket :=
  match Message.to_bytes m with
  | .error e => (.error e, s)
  | .ok bytes =>
    match zmqSend s bytes false ev with
    | (.error e, s1) => (.error (.Send e.msg), s1)
    | (.ok _, s1) => (.ok (), s1)

/-- Model of `Puller::pull` (pipeline.rs:62-68): blocking receive; every transport
error, EAGAIN included, becomes `OxideError::Receive`. -/
def Puller.pull (s : Socket) (ev : RecvEvent) :
    Except OxideError Message × Socket :=
  match zmqRecv s false ev with
  | (.error e, s1) => (.error (.Receive e.msg), s1)
  | (.ok bytes, s1) => (Message.from_bytes bytes, s1)

/-- Model of `Puller::pull_timeout` (pipeline.rs:71-81): sets `ZMQ_RCVTIMEO`, then
receives; EAGAIN is `Ok(None)`, other errors `OxideError::Receive`. -/
def Puller.pull_timeout (s : Socket) (ms : Int) (ev : RecvEvent) :
    Except OxideError (Option Message) × Socket :=
  match setRcvtimeo s ms with
  | .error e => (.error (.Configuration e.msg), s)
  | .ok s1 =>
    match zmqRecv s1 false ev with
    | (.ok bytes, s2) =>
      match Message.from_bytes bytes with
      | .ok m => (.ok (some m), s2)
      | .error e => (.error e, s2)
    | (.error .eagain, s2) => (.ok none, s2)
    | (.error e, s2) => (.error (.Receive e.msg), s2)

/-- Model of `Puller::try_pull` (pipeline.rs:84-90): one non-blocking poll. -/
def Puller.try_pull (s : Socket) (ev : RecvEvent) :
    Except OxideError (Option Message) × Socket :=
  match zmqRecv s true ev with
  | (.ok bytes, s1) =>
    match Message.from_bytes bytes with
    | .ok m => (.ok (some m), s1)
    | .error e => (.error e, s1)
  | (.error .eagain, s1) => (.ok none, s1)
  | (.error e, s1) => (.error (.Receive e.msg), s1)

/-! ## Pub/Sub pattern (src/patterns/pubsub.rs) -/

/-- Model of `Publisher::publish` (pubsub.rs:22-28): a single envelope frame. -/
def Publisher.publish (s : Socket) (m : Message) (ev : SendEvent) :
    Except OxideError Unit × Socket :=
  match Message.to_bytes m with
  | .error e => (.error e, s)
  | .ok bytes =>
    match zmqSend s bytes false ev with
    | (.error e, s1) => (.error (.Send e.msg), s1)
    | (.ok _, s1) => (.ok (), s1)

/-- Model of `Publisher::publish_raw` (pubsub.rs:31-41): topic frame with SNDMORE,
then the raw data frame. -/
def Publisher.publish_raw (s : Socket) (t : List Char) (data : List Char)
    (ev1 ev2 : SendEvent) : Except OxideError Unit × Socket :=
  match zmqSend s t true ev1 with
  | (.error e, s1) => (.error (.Send e.msg), s1)
  | (.ok _, s1) =>
    match zmqSend s1 data false ev2 with
    | (.error e, s2) => (.error (.Send e.msg), s2)
    | (.ok _, s2) => (.ok (), s2)

/-- Model of `Subscriber::subscribe` (pubsub.rs:60-65). -/
def Subscriber.subscribe (s : Socket) (t : List Char) :
    Except OxideError Unit × Socket :=
  match setSubscribe s t with
  | .error e => (.error (.Configuration e.msg), s)
  | .ok s1 => (.ok (), s1)

/-- Model of `Subscriber::unsubscribe` (pubsub.rs:68-73). -/
def Subscriber.unsubscribe (s : Socket) (t : List Char) :
    Except OxideError Unit × Socket :=
  match setUnsubscribe s t with
  | .error e => (.error (.Configuration e.msg), s)
  | .ok s1 => (.ok (), s1)

/-- Model of `Subscriber::receive` (pubsub.rs:76-82): blocking receive; every
transport error, EAGAIN included, becomes `OxideError::Receive`. -/
def Subscriber.receive (s : Socket) (ev : RecvEvent) :
    Except OxideError Message × Socket :=
  match zmqRecv s false ev with
  | (.error e, s1) => (.error (.Receive e.msg), s1)
  | (.ok bytes, s1) => (Message.from_bytes bytes, s1)

/-- Model of `Subscriber::receive_timeout` (pubsub.rs:86-96). -/
def Subscriber.receive_timeout (s : Socket) (ms : Int) (ev : RecvEvent) :
    Except OxideError (Option Message) × Socket :=
  match setRcvtimeo s ms with
  | .error e => (.error (.Configuration e.msg), s)
  | .ok s1 =>
    match zmqRecv s1 false ev with
    | (.ok bytes, s2) =>
      match Message.from_bytes bytes with
      | .ok m => (.ok (some m), s2)
      | .error e => (.error e, s2)
    | (.error .eagain, s2) => (.ok none, s2)
    | (.error e, s2) => (.error (.Receive e.msg), s2)

/-- Model of `Subscriber::try_receive` (pubsub.rs:99-105). -/
def Subscriber.try_receive (s : Socket) (ev : RecvEvent) :
    Except OxideError (Option Message) × Socket :=
  match zmqRecv s true ev with
  | (.ok bytes, s1) =>
    match Message.from_bytes bytes with
    | .ok m => (.ok (some m), s1)
    | .error e => (.error e, s1)
  | (.error .eagain, s1) => (.ok none, s1)
  | (.error e, s1) => (.error (.Receive e.msg), s1)

/-! ## Request/Reply pattern (src/patterns/reqrep.rs) -/

/-- Model of `Requester::request` (reqrep.rs:22-33): send, then block for the
reply. -/
def Requester.request (s : Socket) (m : Message) (sev : SendEvent)
    (rev : RecvEvent) : Except OxideError Message × Socket :=
  match Message.to_bytes m with
  | .error e => (.error e, s)
  | .ok bytes =>
    match zmqSend s bytes false sev with
    | (.error e, s1) => (.error (.Send e.msg), s1)
    | (.ok _, s1) =>
      match zmqRecv s1 false rev with
      | (.error e, s2) => (.error (.Receive e.msg), s2)
      | (.ok rb, s2) => (Message.from_bytes rb, s2)

/-- Model of `Requester::request_timeout` (reqrep.rs:36-51): sends first, only then
sets `ZMQ_RCVTIMEO`, then receives with EAGAIN as `Ok(None)`. -/
def Requester.request_timeout (s : Socket) (m : Message) (ms : Int)
    (sev : SendEvent) (rev : RecvEvent) :
    Except OxideError (Option Message) × Socket :=
  match Message.to_bytes m with
  | .error e => (.error e, s)
  | .ok bytes =>
    match zmqSend s bytes false sev with
    | (.error e, s1) => (.error (.Send e.msg), s1)
    | (.ok _, s1) =>
      match setRcvtimeo s1 ms with
      | .error e => (.error (.Configuration e.msg), s1)
      | .ok s2 =>
        match zmqRecv s2 false rev with
        | (.ok rb, s3) =>
          match Message.from_bytes rb with
          | .ok mr => (.ok (some mr), s3)
          | .error e => (.error e, s3)
        | (.error .eagain, s3) => (.ok none, s3)
        | (.error e, s3) => (.error (.Receive e.msg), s3)

/-- Model of `Replier::receive` (reqrep.rs:69-75): blocking receive; every
transport error, EAGAIN included, becomes `OxideError::Receive`. -/
def Replier.receive (s : Socket) (ev : RecvEvent) :
    Except OxideError Message × Socket :=
  match zmqRecv s false ev with
  | (.error e, s1) => (.error (.Receive e.msg), s1)
  | (.ok bytes, s1) => (Message.from_bytes bytes, s1)

/-- Model of `Replier::receive_timeout` (reqrep.rs:78-88). -/
def Replier.receive_timeout (s : Socket) (ms : Int) (ev : RecvEvent) :
    Except OxideError (Option Message) × Socket :=
  match setRcvtimeo s ms with
  | .error e => (.error (.Configuration e.msg), s)
  | .ok s1 =>
    match zmqRecv s1 false ev with
    | (.ok bytes, s2) =>
      match Message.from_bytes bytes with
      | .ok m => (.ok (some m), s2)
      | .error e => (.error e, s2)
    | (.error .eagain, s2) => (.ok none, s2)
    | (.error e, s2) => (.error (.Receive e.msg), s2)

/-- Model of `Replier::reply` (reqrep.rs:91-97). -/
def Replier.reply (s : Socket) (m : Message) (ev : SendEvent) :
    Except OxideError Unit × Socket :=
  match Message.to_bytes m with
  | .error e => (.error e, s)
  | .ok bytes =>
    match zmqSend s bytes false ev with
    | (.error e, s1) => (.error (.Send e.msg), s1)
    | (.ok _, s1) => (.ok (), s1)

/-! ## Helper lemmas: characters and digits -/

theorem char_eq_of_toNat {c d : Char} (h : c.toNat = d.toNat) : c = d :=
  Char.eq_of_val_eq (UInt32.ext h)

theorem digitChar_isDigit {d : Nat} (h : d < 10) : (Nat.digitChar d).isDigit = true := by
  interval_cases d <;> rfl

theorem digitVal_digitChar {d : Nat} (h : d < 10) : digitVal (Nat.digitChar d) = d := by
  interval_cases d <;> rfl

theorem digitChar_ne_zero {d : Nat} (h0 : 0 < d) (h : d < 10) :
    Nat.digitChar d ≠ '0' := by
  interval_cases d <;> decide

theorem hexVal_digitChar {d : Nat} (h : d < 16) : hexVal (Nat.digitChar d) = some d := by
  interval_cases d <;> rfl

theorem ndr_eq (fuel n : Nat) (h : n ≤ fuel) :
    ndr fuel n = (Nat.digits 10 n).map Nat.digitChar := by
  induction fuel generalizing n with
  | zero => interval_cases n; simp [ndr]
  | succ f ih =>
    by_cases h0 : n = 0
    · simp [ndr, h0]
    · rw [ndr, if_neg h0, Nat.digits_def' (by norm_num : 1 < 10) (Nat.pos_of_ne_zero h0)]
      have hd : n / 10 < n := Nat.div_lt_self (Nat.pos_of_ne_zero h0) (by norm_num)
      rw [ih (n / 10) (by omega)]
      simp

theorem printNat_eq (n : Nat) (h : n ≠ 0) :
    printNat n = ((Nat.digits 10 n).map Nat.digitChar).reverse := by
  rw [printNat, if_neg h, ndr_eq n n le_rfl]

theorem printNat_ne_nil (n : Nat) : printNat n ≠ [] := by
  by_cases h : n = 0
  · simp [printNat, h]
  · rw [printNat_eq n h]
    simp [Nat.digits_ne_nil_iff_ne_zero, h]

theorem printNat_all_digits (n : Nat) : ∀ c ∈ printNat n, c.isDigit = true := by
  intro c hc
  by_cases h : n = 0
  · simp [printNat, h] at hc
    simp [hc]
  · rw [printNat_eq n h] at hc
    simp only [List.mem_reverse, List.mem_map] at hc
    obtain ⟨d, hd, rfl⟩ := hc
    exact digitChar_isDigit (Nat.digits_lt_base (by norm_num) hd)

theorem digitChar_toNat {d : Nat} (h : d < 10) : (Nat.digitChar d).toNat = 48 + d := by
  interval_cases d <;> rfl

theorem printNat_range (n : Nat) : ∀ c ∈ printNat n, 48 ≤ c.toNat ∧ c.toNat ≤ 57 := by
  intro c hc
  by_cases h : n = 0
  · simp [printNat, h] at hc
    simp [hc]
  · rw [printNat_eq n h] at hc
    simp only [List.mem_reverse, List.mem_map] at hc
    obtain ⟨d, hd, rfl⟩ := hc
    have := Nat.digits_lt_base (by norm_num) hd
    rw [digitChar_toNat this]
    omega

theorem isWs_false_of_range {c : Char} (h1 : 48 ≤ c.toNat) (h2 : c.toNat ≤ 57) :
    isWs c = false := by
  simp only [isWs]
  simp only [Bool.or_eq_false_iff, decide_eq_false_iff_not]
  omega

theorem printNat_head_ne_zero (n : Nat) (h : n ≠ 0) (c : Char) (t : List Char)
    (he : printNat n = c :: t) : c ≠ '0' := by
  rw [printNat_eq n h] at he
  have hh : (((Nat.digits 10 n).map Nat.digitChar).reverse).head? = some c := by
    rw [he]; rfl
  rw [List.head?_reverse, List.getLast?_map] at hh
  have hne : Nat.digits 10 n ≠ [] := Nat.digits_ne_nil_iff_ne_zero.mpr h
  rw [List.getLast?_eq_getLast _ hne, Option.map_some'] at hh
  rw [Option.some_inj] at hh
  have h0 := Nat.getLast_digit_ne_zero 10 h
  have hlt : (Nat.digits 10 n).getLast hne < 10 :=
    Nat.digits_lt_base (by norm_num) (List.getLast_mem hne)
  rw [← hh]
  exact digitChar_ne_zero (Nat.pos_of_ne_zero h0) hlt

/-! ## Helper lemmas: number parsing round trip -/

theorem takeDigits_append (ds rest : List Char) (hds : ∀ c ∈ ds, c.isDigit = true)
    (hrest : numStop rest = true) : takeDigits (ds ++ rest) = (ds, rest) := by
  induction ds with
  | nil =>
    cases rest with
    | nil => rfl
    | cons r t =>
      simp only [numStop, Bool.not_eq_true', Bool.or_eq_false_iff] at hrest
      simp [takeDigits, hrest.1.1]
  | cons c ds ih =>
    have hc := hds c (by simp)
    have ih' := ih (fun x hx => hds x (by simp [hx]))
    simp [takeDigits, hc, List.append_eq, ih']

theorem foldl_digits (L : List Nat) (acc : Nat) (h : ∀ d ∈ L, d < 10) :
    List.foldl (fun a c => 10 * a + digitVal c) acc ((L.map Nat.digitChar).reverse) =
    acc * 10 ^ L.length + Nat.ofDigits 10 L := by
  induction L generalizing acc with
  | nil => simp [Nat.ofDigits_nil]
  | cons d L ih =>
    simp only [List.map_cons, List.reverse_cons, List.foldl_append, List.foldl_cons,
      List.foldl_nil]
    rw [ih _ (fun x hx => h x (by simp [hx]))]
    rw [digitVal_digitChar (h d (by simp))]
    rw [Nat.ofDigits_cons]
    simp only [List.length_cons, pow_succ]
    ring

theorem digitsToNat_printNat (n : Nat) : digitsToNat (printNat n) = n := by
  by_cases h : n = 0
  · simp [printNat, h, digitsToNat, List.foldl, digitVal]
  · rw [printNat_eq n h, digitsToNat,
      foldl_digits _ 0 (fun d hd => Nat.digits_lt_base (by norm_num) hd)]
    simp [Nat.ofDigits_digits]

theorem parseNumTail_printNat (k : Nat) (neg : Bool) (rest : List Char)
    (hrest : numStop rest = true)
    (hk : if neg then k ≤ 2 ^ 63 ∧ k ≠ 0 else k < 2 ^ 64) :
    parseNumTail neg (printNat k ++ rest) =
      some (.num (if neg then -(k : Int) else (k : Int)), rest) := by
  by_cases h0 : k = 0
  · subst h0
    cases neg with
    | true => simp at hk
    | false => simp [printNat, parseNumTail, hrest]
  · obtain ⟨c, t, hct⟩ : ∃ c t, printNat k = c :: t := by
      cases he : printNat k with
      | nil => exact absurd he (printNat_ne_nil k)
      | cons c t => exact ⟨c, t, rfl⟩
    have hdig : c.isDigit = true := printNat_all_digits k c (by rw [hct]; simp)
    have hnz : c ≠ '0' := printNat_head_ne_zero k h0 c t hct
    have htake : takeDigits (c :: (t ++ rest)) = (c :: t, rest) := by
      have := takeDigits_append (c :: t) rest
        (fun x hx => printNat_all_digits k x (by rw [hct]; exact hx)) hrest
      simpa using this
    have hdtn : digitsToNat (c :: t) = k := by rw [← hct]; exact digitsToNat_printNat k
    rw [hct, List.cons_append]
    simp only [parseNumTail]
    rw [if_neg (show ¬¬c.isDigit = true by simp [hdig]), if_neg hnz]
    simp only [htake, hdtn, hrest, if_pos]
    cases neg with
    | true =>
      rw [if_pos rfl] at hk
      have h1 : k ≤ 2 ^ 63 := hk.1
      simp only [if_true]
      rw [if_pos (by omega)]
    | false =>
      rw [if_neg (by simp)] at hk
      simp only [Bool.false_eq_true, if_false]
      rw [if_pos (by omega)]


/-! ## Helper lemmas: string escaping round trip -/

theorem escStr_append (a b : List Char) : escStr (a ++ b) = escStr a ++ escStr b := by
  induction a with
  | nil => rfl
  | cons c t ih => simp [escStr, ih]

theorem escChar_length_pos (c : Char) : 1 ≤ (escChar c).length := by
  unfold escChar
  split_ifs <;> simp

theorem escStr_length (s : List Char) : s.length ≤ (escStr s).length := by
  induction s with
  | nil => simp [escStr]
  | cons c t ih =>
    have := escChar_length_pos c
    simp only [escStr, List.length_cons, List.length_append]
    omega

theorem parseStrBody_u_esc (f : Nat) (dH dL : Char) (a b2 : Nat) (l : List Char)
    (hH : hexVal dH = some a) (hL : hexVal dL = some b2) :
    parseStrBody (f+1) (bsl :: 'u' :: '0' :: '0' :: dH :: dL :: l) =
      (if validCp (((0 * 16 + 0) * 16 + a) * 16 + b2) then
        (parseStrBody f l).map
          (fun p => (Char.ofNat (((0 * 16 + 0) * 16 + a) * 16 + b2) :: p.1, p.2))
      else none) := by
  have hg : parseStrBody (f+1) (bsl :: 'u' :: '0' :: '0' :: dH :: dL :: l) =
      (match hexVal '0', hexVal '0', hexVal dH, hexVal dL with
        | some a, some b, some c2, some d =>
          if validCp (((a * 16 + b) * 16 + c2) * 16 + d) then
            (parseStrBody f l).map
              (fun p => (Char.ofNat (((a * 16 + b) * 16 + c2) * 16 + d) :: p.1, p.2))
          else none
        | _, _, _, _ => none) := rfl
  rw [hg, hH, hL]
  rfl

theorem parseStrBody_plain (f : Nat) (c : Char) (l : List Char) (h1 : ¬ c = qu)
    (h2 : ¬ c = bsl) (h8 : ¬ c.toNat < 32) :
    parseStrBody (f+1) (c :: l) = (parseStrBody f l).map (fun p => (c :: p.1, p.2)) := by
  rw [parseStrBody.eq_def]
  simp [h1, h2, h8]

theorem parseStrBody_escStr (s : List Char) : ∀ (fuel : Nat) (rest : List Char),
    s.length < fuel →
    parseStrBody fuel (escStr s ++ qu :: rest) = some (s, rest) := by
  induction s with
  | nil =>
    intro fuel rest hf
    obtain ⟨f, rfl⟩ : ∃ f, fuel = f + 1 := ⟨fuel - 1, by omega⟩
    rfl
  | cons c t ih =>
    intro fuel rest hf
    obtain ⟨f, rfl⟩ : ∃ f, fuel = f + 1 := ⟨fuel - 1, by omega⟩
    have hft : t.length < f := by simp at hf; omega
    have hih := ih f rest hft
    have hesc : escStr (c :: t) ++ qu :: rest = escChar c ++ (escStr t ++ qu :: rest) := by
      simp [escStr]
    rw [hesc]
    by_cases h1 : c = qu
    · subst h1
      show (parseStrBody f (escStr t ++ qu :: rest)).map (fun p => (qu :: p.1, p.2)) = _
      rw [hih]
      rfl
    by_cases h2 : c = bsl
    · subst h2
      show (parseStrBody f (escStr t ++ qu :: rest)).map (fun p => (bsl :: p.1, p.2)) = _
      rw [hih]
      rfl
    by_cases h3 : c.toNat = 8
    · have hc : c = Char.ofNat 8 := char_eq_of_toNat (by rw [h3]; rfl)
      subst hc
      show (parseStrBody f (escStr t ++ qu :: rest)).map
        (fun p => (Char.ofNat 8 :: p.1, p.2)) = _
      rw [hih]
      rfl
    by_cases h4 : c.toNat = 9
    · have hc : c = Char.ofNat 9 := char_eq_of_toNat (by rw [h4]; rfl)
      subst hc
      show (parseStrBody f (escStr t ++ qu :: rest)).map
        (fun p => (Char.ofNat 9 :: p.1, p.2)) = _
      rw [hih]
      rfl
    by_cases h5 : c.toNat = 10
    · have hc : c = Char.ofNat 10 := char_eq_of_toNat (by rw [h5]; rfl)
      subst hc
      show (parseStrBody f (escStr t ++ qu :: rest)).map
        (fun p => (Char.ofNat 10 :: p.1, p.2)) = _
      rw [hih]
      rfl
    by_cases h6 : c.toNat = 12
    · have hc : c = Char.ofNat 12 := char_eq_of_toNat (by rw [h6]; rfl)
      subst hc
      show (parseStrBody f (escStr t ++ qu :: rest)).map
        (fun p => (Char.ofNat 12 :: p.1, p.2)) = _
      rw [hih]
      rfl
    by_cases h7 : c.toNat = 13
    · have hc : c = Char.ofNat 13 := char_eq_of_toNat (by rw [h7]; rfl)
      subst hc
      show (parseStrBody f (escStr t ++ qu :: rest)).map
        (fun p => (Char.ofNat 13 :: p.1, p.2)) = _
      rw [hih]
      rfl
    by_cases h8 : c.toNat < 32
    · rw [show escChar c = [bsl, 'u', '0', '0',
          Nat.digitChar (c.toNat / 16), Nat.digitChar (c.toNat % 16)] by
        simp [escChar, h1, h2, h3, h4, h5, h6, h7, h8]]
      have hH := hexVal_digitChar (show c.toNat / 16 < 16 by omega)
      have hL := hexVal_digitChar (show c.toNat % 16 < 16 by omega)
      rw [show ([bsl, 'u', '0', '0', Nat.digitChar (c.toNat / 16),
          Nat.digitChar (c.toNat % 16)] ++ (escStr t ++ qu :: rest)) =
          bsl :: 'u' :: '0' :: '0' :: Nat.digitChar (c.toNat / 16) ::
          Nat.digitChar (c.toNat % 16) :: (escStr t ++ qu :: rest) from rfl]
      rw [parseStrBody_u_esc f _ _ _ _ _ hH hL]
      have harith : ((0 * 16 + 0) * 16 + c.toNat / 16) * 16 + c.toNat % 16
          = c.toNat := by omega
      rw [harith]
      rw [if_pos (show validCp c.toNat = true by simp [validCp]; omega)]
      rw [Char.ofNat_toNat, hih]
      rfl
    · rw [show escChar c = [c] by
        simp [escChar, h1, h2, h3, h4, h5, h6, h7, h8]]
      rw [List.cons_append, List.nil_append,
        parseStrBody_plain f c _ h1 h2 h8, hih]
      rfl

/-! ## Helper lemmas: key order and BTreeMap insertion -/

theorem keyLt_cons_iff (x y : Char) (xs ys : List Char) :
    keyLt (x :: xs) (y :: ys) = true ↔
      x.toNat < y.toNat ∨ (x.toNat = y.toNat ∧ keyLt xs ys = true) := by
  simp only [keyLt]
  split_ifs with h1 h2
  · simp [h1]
  · simp
    omega
  · have hxy : x.toNat = y.toNat := by omega
    simp [hxy]

theorem keyLt_irrefl (k : List Char) : ¬ keyLt k k = true := by
  induction k with
  | nil => simp [keyLt]
  | cons c t ih => simp [keyLt_cons_iff, ih]

theorem keyLt_ne {a b : List Char} (h : keyLt a b = true) : a ≠ b := by
  intro he
  subst he
  exact keyLt_irrefl a h

theorem keyLt_asymm {a b : List Char} (h : keyLt a b = true) : ¬ keyLt b a = true := by
  induction a generalizing b with
  | nil =>
    cases b with
    | nil => simp [keyLt] at h
    | cons c t => simp [keyLt]
  | cons x xs ih =>
    cases b with
    | nil => simp [keyLt] at h
    | cons y ys =>
      rw [keyLt_cons_iff] at h ⊢
      rcases h with h | ⟨h1, h2⟩
      · push_neg
        constructor
        · omega
        · intro he
          omega
      · push_neg
        constructor
        · omega
        · intro _
          exact ih h2

theorem keyLt_trans {a b c : List Char} (hab : keyLt a b = true)
    (hbc : keyLt b c = true) : keyLt a c = true := by
  induction a generalizing b c with
  | nil =>
    cases c with
    | nil =>
      cases b with
      | nil => simp [keyLt] at hab
      | cons y ys => simp [keyLt] at hbc
    | cons z zs => simp [keyLt]
  | cons x xs ih =>
    cases b with
    | nil => simp [keyLt] at hab
    | cons y ys =>
      cases c with
      | nil => simp [keyLt] at hbc
      | cons z zs =>
        rw [keyLt_cons_iff] at hab hbc ⊢
        rcases hab with h | ⟨he1, hk1⟩
        · rcases hbc with h2 | ⟨he2, _⟩
          · left
            omega
          · left
            omega
        · rcases hbc with h2 | ⟨he2, hk2⟩
          · left
            omega
          · right
            exact ⟨by omega, ih hk1 hk2⟩

theorem mapInsert_append (acc : List (List Char × Json)) (k : List Char) (v : Json)
    (h : ∀ e ∈ acc, keyLt e.1 k = true) :
    mapInsert acc k v = acc ++ [(k, v)] := by
  induction acc with
  | nil => rfl
  | cons p t ih =>
    obtain ⟨k1, v1⟩ := p
    have hk1 : keyLt k1 k = true := h (k1, v1) (by simp)
    simp only [mapInsert]
    rw [if_neg (keyLt_asymm hk1), if_neg (Ne.symm (keyLt_ne hk1))]
    rw [ih (fun e he => h e (by simp [he]))]
    simp

theorem sortedKeys_tail (k : List Char) (v : Json) (t : List (List Char × Json))
    (h : sortedKeys ((k, v) :: t) = true) : sortedKeys t = true := by
  cases t with
  | nil => rfl
  | cons p u =>
    obtain ⟨k2, v2⟩ := p
    simp only [sortedKeys, Bool.and_eq_true] at h
    exact h.2

theorem sorted_head_lt (k : List Char) (v : Json) (t : List (List Char × Json))
    (h : sortedKeys ((k, v) :: t) = true) : ∀ e ∈ t, keyLt k e.1 = true := by
  induction t generalizing k v with
  | nil => simp
  | cons p u ih =>
    obtain ⟨k2, v2⟩ := p
    simp only [sortedKeys, Bool.and_eq_true] at h
    intro e he
    rcases List.mem_cons.mp he with rfl | he2
    · exact h.1
    · exact keyLt_trans h.1 (ih k2 v2 h.2 e he2)

theorem foldl_mapInsert_sorted (kvs : List (List Char × Json)) :
    ∀ acc, (∀ e ∈ acc, ∀ f ∈ kvs, keyLt e.1 f.1 = true) →
    sortedKeys kvs = true →
    List.foldl (fun a p => mapInsert a p.1 p.2) acc kvs = acc ++ kvs := by
  induction kvs with
  | nil =>
    intro acc _ _
    simp
  | cons p t ih =>
    intro acc hacc hs
    obtain ⟨k, v⟩ := p
    have hins : mapInsert acc k v = acc ++ [(k, v)] :=
      mapInsert_append acc k v (fun e he => hacc e he (k, v) (by simp))
    have hacc2 : ∀ e ∈ acc ++ [(k, v)], ∀ f ∈ t, keyLt e.1 f.1 = true := by
      intro e he f hf
      rcases List.mem_append.mp he with h | h
      · exact hacc e h f (by simp [hf])
      · simp only [List.mem_singleton] at h
        subst h
        exact sorted_head_lt k v t hs f hf
    simp only [List.foldl_cons]
    rw [hins, ih (acc ++ [(k, v)]) hacc2 (sortedKeys_tail k v t hs)]
    simp

theorem foldl_mapInsert_sorted_nil (kvs : List (List Char × Json))
    (hs : sortedKeys kvs = true) :
    List.foldl (fun a p => mapInsert a p.1 p.2) [] kvs = kvs := by
  rw [foldl_mapInsert_sorted kvs [] (fun e he => (List.not_mem_nil e he).elim) hs]
  simp

/-! ## Helper lemmas: shape of printed values -/

theorem skipWs_cons_of_not_ws {c : Char} (l : List Char) (h : isWs c = false) :
    skipWs (c :: l) = c :: l := by
  simp [skipWs, h]

theorem digit_head_ne {c : Char} (h1 : 48 ≤ c.toNat) (h2 : c.toNat ≤ 57) :
    c ≠ 'n' ∧ c ≠ 't' ∧ c ≠ 'f' ∧ c ≠ qu ∧ c ≠ lbrack ∧ c ≠ lbrace ∧ c ≠ '-' := by
  refine ⟨?_, ?_, ?_, ?_, ?_, ?_, ?_⟩ <;> intro he <;> subst he
  · exact absurd h2 (by decide)
  · exact absurd h2 (by decide)
  · exact absurd h2 (by decide)
  · exact absurd h1 (by decide)
  · exact absurd h2 (by decide)
  · exact absurd h2 (by decide)
  · exact absurd h1 (by decide)

theorem printJson_head (v : Json) : ∃ c t, printJson v = c :: t ∧ isWs c = false ∧
    c ≠ rbrack := by
  cases v with
  | null => exact ⟨'n', _, rfl, by decide, by decide⟩
  | bool b =>
    cases b with
    | true => exact ⟨'t', _, rfl, by decide, by decide⟩
    | false => exact ⟨'f', _, rfl, by decide, by decide⟩
  | str s => exact ⟨qu, _, rfl, by decide, by decide⟩
  | arr xs => exact ⟨lbrack, _, rfl, by decide, by decide⟩
  | obj kvs => exact ⟨lbrace, _, rfl, by decide, by decide⟩
  | num n =>
    by_cases hn : n < 0
    · refine ⟨'-', printNat n.natAbs, ?_, by decide, by decide⟩
      simp [printJson, printInt, hn]
    · obtain ⟨c, t, hct⟩ : ∃ c t, printNat n.toNat = c :: t := by
        cases he : printNat n.toNat with
        | nil => exact absurd he (printNat_ne_nil n.toNat)
        | cons c t => exact ⟨c, t, rfl⟩
      have hr := printNat_range n.toNat c (by rw [hct]; simp)
      refine ⟨c, t, ?_, isWs_false_of_range hr.1 hr.2, ?_⟩
      · simp [printJson, printInt, hn, hct]
      · intro he
        subst he
        exact absurd hr.2 (by decide)

theorem printJson_ne_nil (v : Json) : printJson v ≠ [] := by
  obtain ⟨c, t, h, _, _⟩ := printJson_head v
  simp [h]

theorem printJson_length_pos (v : Json) : 1 ≤ (printJson v).length := by
  obtain ⟨c, t, h, _, _⟩ := printJson_head v
  simp [h]

theorem skipWs_print (v : Json) (rest : List Char) :
    skipWs (printJson v ++ rest) = printJson v ++ rest := by
  obtain ⟨c, t, h, hws, _⟩ := printJson_head v
  rw [h, List.cons_append]
  exact skipWs_cons_of_not_ws _ hws

/-! ## Helper lemmas: parseVal dispatch on the first character -/

theorem parseVal_digit (m : Nat) (c : Char) (l : List Char) (hd : c.isDigit = true)
    (h1 : 48 ≤ c.toNat) (h2 : c.toNat ≤ 57) :
    parseVal (m+1) (c :: l) = parseNumTail false (c :: l) := by
  obtain ⟨hn, ht, hf, hq, hlb, hlc, hm⟩ := digit_head_ne h1 h2
  rw [parseVal, skipWs_cons_of_not_ws _ (isWs_false_of_range h1 h2)]
  simp [hn, ht, hf, hq, hlb, hlc, hm, hd]

theorem parseVal_lbrack_step (m : Nat) (c : Char) (t : List Char)
    (hws : isWs c = false) (hrb : c ≠ rbrack) :
    parseVal (m+1) (lbrack :: c :: t) = parseElems m (c :: t) [] := by
  rw [parseVal, skipWs_cons_of_not_ws _ (by decide : isWs lbrack = false)]
  simp only
  simp
  rw [skipWs_cons_of_not_ws t hws]
  simp [hrb]
  rw [if_neg (by decide), if_neg (by decide), if_neg (by decide), if_neg (by decide)]

theorem parseVal_lbrace_step (m : Nat) (c : Char) (t : List Char)
    (hws : isWs c = false) (hrb : c ≠ rbrace) :
    parseVal (m+1) (lbrace :: c :: t) = parseFields m (c :: t) [] := by
  rw [parseVal, skipWs_cons_of_not_ws _ (by decide : isWs lbrace = false)]
  simp only
  simp
  rw [skipWs_cons_of_not_ws t hws]
  simp [hrb]
  rw [if_neg (by decide), if_neg (by decide), if_neg (by decide), if_neg (by decide),
    if_neg (by decide)]

/-! ## Helper lemmas: loop stages of the parser -/

theorem parseElems_cons_eq (m : Nat) (cs r1 : List Char) (x : Json) (acc : List Json)
    (hpv : parseVal m cs = some (x, r1)) :
    parseElems (m+1) cs acc =
      (match skipWs r1 with
        | d :: r2 =>
          if d = comma then parseElems m r2 (acc ++ [x])
          else if d = rbrack then some (Json.arr (acc ++ [x]), r2)
          else none
        | [] => none) := by
  have h0 : parseElems (m+1) cs acc =
      (match parseVal m cs with
        | none => none
        | some (v, r1) =>
          match skipWs r1 with
          | d :: r2 =>
            if d = comma then parseElems m r2 (acc ++ [v])
            else if d = rbrack then some (Json.arr (acc ++ [v]), r2)
            else none
          | [] => none) := rfl
  rw [h0, hpv]

theorem parseFields_step (m : Nat) (Z : List Char) (acc : List (List Char × Json)) :
    parseFields (m+1) (qu :: Z) acc =
      (match parseStrBody (Z.length + 1) Z with
        | none => none
        | some (k, r1) =>
          match skipWs r1 with
          | d :: r2 =>
            if d = colonC then
              match parseVal m r2 with
              | none => none
              | some (v, r3) =>
                match skipWs r3 with
                | e :: r4 =>
                  if e = comma then parseFields m r4 (mapInsert acc k v)
                  else if e = rbrace then some (Json.obj (mapInsert acc k v), r4)
                  else none
                | [] => none
            else none
          | [] => none) := rfl

theorem parseFields_cons_eq (m : Nat) (Z W r3 : List Char) (k : List Char) (v : Json)
    (acc : List (List Char × Json))
    (hps : parseStrBody (Z.length + 1) Z = some (k, colonC :: W))
    (hpv : parseVal m W = some (v, r3)) :
    parseFields (m+1) (qu :: Z) acc =
      (match skipWs r3 with
        | e :: r4 =>
          if e = comma then parseFields m r4 (mapInsert acc k v)
          else if e = rbrace then some (Json.obj (mapInsert acc k v), r4)
          else none
        | [] => none) := by
  rw [parseFields_step, hps]
  show (match parseVal m W with
    | none => none
    | some (v, r3) =>
      match skipWs r3 with
      | e :: r4 =>
        if e = comma then parseFields m r4 (mapInsert acc k v)
        else if e = rbrace then some (Json.obj (mapInsert acc k v), r4)
        else none
      | [] => none) = _
  rw [hpv]

/-! ## The printer/parser round trip -/

theorem parse_print_main : ∀ n : Nat,
    (∀ v rest, wfJ v = true → (printJson v).length < n → numStop rest = true →
      parseVal n (printJson v ++ rest) = some (v, rest)) ∧
    (∀ xs acc rest, xs ≠ [] → wfList xs = true →
      (printElems xs).length + 1 < n →
      parseElems n (printElems xs ++ rbrack :: rest) acc =
        some (.arr (acc ++ xs), rest)) ∧
    (∀ kvs acc rest, kvs ≠ [] → wfFieldsVals kvs = true →
      (printFields kvs).length + 1 < n →
      parseFields n (printFields kvs ++ rbrace :: rest) acc =
        some (.obj (List.foldl (fun a p => mapInsert a p.1 p.2) acc kvs), rest)) := by
  intro n
  induction n using Nat.strong_induction_on with
  | _ n ih =>
    refine ⟨?_, ?_, ?_⟩
    · -- parseVal inverts printJson
      intro v rest hwf hlen hstop
      obtain ⟨m, rfl⟩ : ∃ m, n = m + 1 :=
        ⟨n - 1, by have := printJson_length_pos v; omega⟩
      cases v with
      | null =>
        simp only [printJson]
        rfl
      | bool b =>
        cases b <;> (simp only [printJson]; rfl)
      | str s =>
        have harr : printJson (.str s) ++ rest = qu :: (escStr s ++ qu :: rest) := by
          simp [printJson]
        rw [harr]
        show (parseStrBody ((escStr s ++ qu :: rest).length + 1)
            (escStr s ++ qu :: rest)).map (fun p => (Json.str p.1, p.2)) =
          some (Json.str s, rest)
        rw [parseStrBody_escStr s _ rest (by
          have h1 := escStr_length s
          simp only [List.length_append, List.length_cons]
          omega)]
        rfl
      | num nn =>
        simp only [wfJ, decide_eq_true_eq] at hwf
        by_cases hn : nn < 0
        · have harr : printJson (.num nn) ++ rest = '-' :: (printNat nn.natAbs ++ rest) := by
            simp [printJson, printInt, hn]
          rw [harr]
          show parseNumTail true (printNat nn.natAbs ++ rest) = some (Json.num nn, rest)
          rw [parseNumTail_printNat nn.natAbs true rest hstop
            (by rw [if_pos rfl]; constructor <;> omega)]
          have he : -((nn.natAbs : Int)) = nn := by omega
          rw [he]
          rfl
        · have harr : printJson (.num nn) ++ rest = printNat nn.toNat ++ rest := by
            simp [printJson, printInt, hn]
          rw [harr]
          obtain ⟨c, t, hct⟩ : ∃ c t, printNat nn.toNat = c :: t := by
            cases he : printNat nn.toNat with
            | nil => exact absurd he (printNat_ne_nil nn.toNat)
            | cons c t => exact ⟨c, t, rfl⟩
          have hd : c.isDigit = true := printNat_all_digits nn.toNat c (by rw [hct]; simp)
          have hr := printNat_range nn.toNat c (by rw [hct]; simp)
          rw [hct, List.cons_append, parseVal_digit m c _ hd hr.1 hr.2,
            ← List.cons_append, ← hct,
            parseNumTail_printNat nn.toNat false rest hstop
              (by rw [if_neg (by simp)]; omega)]
          have he : ((nn.toNat : Int)) = nn := by omega
          rw [he]
          rfl
      | arr xs =>
        simp only [wfJ] at hwf
        cases xs with
        | nil =>
          have harr : printJson (.arr []) ++ rest = lbrack :: rbrack :: rest := by
            simp [printJson, printElems]
          rw [harr]
          rfl
        | cons x xs' =>
          have hwx : wfJ x = true ∧ wfList xs' = true := by
            simp only [wfList, Bool.and_eq_true] at hwf
            exact hwf
          have harr : printJson (.arr (x :: xs')) ++ rest =
              lbrack :: (printElems (x :: xs') ++ rbrack :: rest) := by
            simp [printJson]
          rw [harr]
          obtain ⟨c, t0, hct, hws, hrb⟩ := printJson_head x
          obtain ⟨R, hR⟩ : ∃ R, printElems (x :: xs') = printJson x ++ R := by
            cases xs' with
            | nil => exact ⟨[], by simp [printElems]⟩
            | cons y ys => exact ⟨comma :: printElems (y :: ys), by simp [printElems]⟩
          have hz : printElems (x :: xs') ++ rbrack :: rest =
              c :: (t0 ++ R ++ rbrack :: rest) := by
            rw [hR, hct]
            simp
          rw [hz, parseVal_lbrack_step m c _ hws hrb, ← hz]
          have hfuel : (printElems (x :: xs')).length + 1 < m := by
            have hle : (printJson (.arr (x :: xs'))).length =
                (printElems (x :: xs')).length + 2 := by
              simp [printJson]
            omega
          rw [(ih m (by omega)).2.1 (x :: xs') [] rest (by simp) hwf hfuel]
          simp
      | obj kvs =>
        simp only [wfJ, Bool.and_eq_true] at hwf
        cases kvs with
        | nil =>
          have harr : printJson (.obj []) ++ rest = lbrace :: rbrace :: rest := by
            simp [printJson, printFields]
          rw [harr]
          rfl
        | cons p kvs' =>
          obtain ⟨k, v⟩ := p
          have harr : printJson (.obj ((k, v) :: kvs')) ++ rest =
              lbrace :: (printFields ((k, v) :: kvs') ++ rbrace :: rest) := by
            simp [printJson]
          rw [harr]
          obtain ⟨R, hR⟩ : ∃ R, printFields ((k, v) :: kvs') =
              qu :: (escStr k ++ qu :: colonC :: printJson v) ++ R := by
            cases kvs' with
            | nil => exact ⟨[], by simp [printFields]⟩
            | cons q qs => exact ⟨comma :: printFields (q :: qs), by simp [printFields]⟩
          have hz : printFields ((k, v) :: kvs') ++ rbrace :: rest =
              qu :: (escStr k ++ qu :: colonC :: printJson v ++ R ++ rbrace :: rest) := by
            rw [hR]
            simp
          rw [hz, parseVal_lbrace_step m qu _ (by decide) (by decide), ← hz]
          have hfuel : (printFields ((k, v) :: kvs')).length + 1 < m := by
            have hle : (printJson (.obj ((k, v) :: kvs'))).length =
                (printFields ((k, v) :: kvs')).length + 2 := by
              simp [printJson]
            omega
          rw [(ih m (by omega)).2.2 ((k, v) :: kvs') [] rest (by simp) hwf.2 hfuel]
          rw [foldl_mapInsert_sorted ((k, v) :: kvs') [] 
            (fun e he => (List.not_mem_nil e he).elim) hwf.1]
          rfl
    · -- parseElems inverts printElems
      intro xs acc rest hne hwf hlen
      obtain ⟨m, rfl⟩ : ∃ m, n = m + 1 := ⟨n - 1, by omega⟩
      cases xs with
      | nil => exact absurd rfl hne
      | cons x xs' =>
        have hwx : wfJ x = true ∧ wfList xs' = true := by
          simp only [wfList, Bool.and_eq_true] at hwf
          exact hwf
        cases xs' with
        | nil =>
          have hpe : printElems [x] = printJson x := by simp [printElems]
          rw [hpe]
          have hfuelx : (printJson x).length < m := by
            rw [hpe] at hlen
            omega
          rw [parseElems_cons_eq m _ _ x acc
            ((ih m (by omega)).1 x (rbrack :: rest) hwx.1 hfuelx rfl)]
          rfl
        | cons y ys =>
          have hpe : printElems (x :: y :: ys) =
              printJson x ++ comma :: printElems (y :: ys) := by
            simp [printElems]
          have hlx := printJson_length_pos x
          have hlen2 : (printJson x).length + 1 + (printElems (y :: ys)).length + 1
              < m + 1 := by
            rw [hpe] at hlen
            simp only [List.length_append, List.length_cons] at hlen
            omega
          rw [hpe, List.append_assoc, List.cons_append]
          rw [parseElems_cons_eq m _ _ x acc
            ((ih m (by omega)).1 x (comma :: (printElems (y :: ys) ++ rbrack :: rest))
              hwx.1 (by omega) rfl)]
          show parseElems m (printElems (y :: ys) ++ rbrack :: rest) (acc ++ [x]) =
            some (Json.arr (acc ++ x :: y :: ys), rest)
          rw [(ih m (by omega)).2.1 (y :: ys) (acc ++ [x]) rest (by simp) hwx.2
            (by omega)]
          simp
    · -- parseFields inverts printFields
      intro kvs acc rest hne hwf hlen
      obtain ⟨m, rfl⟩ : ∃ m, n = m + 1 := ⟨n - 1, by omega⟩
      cases kvs with
      | nil => exact absurd rfl hne
      | cons p kvs' =>
        obtain ⟨k, v⟩ := p
        have hwv : wfJ v = true ∧ wfFieldsVals kvs' = true := by
          simp only [wfFieldsVals, Bool.and_eq_true] at hwf
          exact hwf
        cases kvs' with
        | nil =>
          have hpf : printFields [(k, v)] = qu :: (escStr k ++ qu :: colonC :: printJson v) := by
            simp [printFields]
          have hlenv : (printJson v).length < m ∧ k.length < (escStr k ++ qu :: colonC ::
              printJson v ++ rbrace :: rest).length + 1 := by
            constructor
            · rw [hpf] at hlen
              simp only [List.length_cons, List.length_append] at hlen
              omega
            · have := escStr_length k
              simp only [List.length_append, List.length_cons]
              omega
          have hz : printFields [(k, v)] ++ rbrace :: rest =
              qu :: (escStr k ++ qu :: (colonC :: (printJson v ++ rbrace :: rest))) := by
            rw [hpf]
            simp
          rw [hz]
          rw [parseFields_cons_eq m _ _ _ k v acc
            (by
              rw [parseStrBody_escStr k _ _ (by
                have := escStr_length k
                simp only [List.length_append, List.length_cons]
                omega)])
            ((ih m (by omega)).1 v (rbrace :: rest) hwv.1 hlenv.1 rfl)]
          rfl
        | cons q qs =>
          have hpf : printFields ((k, v) :: q :: qs) =
              (qu :: escStr k ++ qu :: colonC :: printJson v) ++
                comma :: printFields (q :: qs) := by
            simp [printFields]
          have hlv := printJson_length_pos v
          have hlen2 : (escStr k).length + (printJson v).length +
              (printFields (q :: qs)).length + 5 < m + 1 := by
            rw [hpf] at hlen
            simp only [List.length_append, List.length_cons] at hlen
            omega
          have hz : printFields ((k, v) :: q :: qs) ++ rbrace :: rest =
              qu :: (escStr k ++ qu :: (colonC :: (printJson v ++
                (comma :: (printFields (q :: qs) ++ rbrace :: rest))))) := by
            rw [hpf]
            simp
          rw [hz]
          rw [parseFields_cons_eq m _ _ _ k v acc
            (by
              rw [parseStrBody_escStr k _ _ (by
                have := escStr_length k
                simp only [List.length_append, List.length_cons]
                omega)])
            ((ih m (by omega)).1 v
              (comma :: (printFields (q :: qs) ++ rbrace :: rest)) hwv.1
              (by omega) rfl)]
          show parseFields m (printFields (q :: qs) ++ rbrace :: rest)
              (mapInsert acc k v) =
            some (Json.obj (List.foldl (fun a p => mapInsert a p.1 p.2) acc
              ((k, v) :: q :: qs)), rest)
          rw [(ih m (by omega)).2.2 (q :: qs) (mapInsert acc k v) rest (by simp)
            hwv.2 (by omega)]
          rfl

theorem parseDoc_serializeMessage (m0 : Message) (h : wfJ m0.payload = true) :
    parseDoc (serializeMessage m0) =
      some (Json.obj [(payloadKey, m0.payload), (topicKey, Json.str m0.topic)]) := by
  have hkvs : wfFieldsVals [(topicKey, Json.str m0.topic), (payloadKey, m0.payload)]
      = true := by
    simp [wfFieldsVals, wfJ, h]
  have hbs : serializeMessage m0 =
      lbrace :: (printFields [(topicKey, Json.str m0.topic), (payloadKey, m0.payload)]
        ++ rbrace :: []) := by
    simp [serializeMessage, printJson]
  obtain ⟨T, hT⟩ : ∃ T, printFields [(topicKey, Json.str m0.topic),
      (payloadKey, m0.payload)] = qu :: T := by
    simp only [printFields]
    exact ⟨_, rfl⟩
  have hpv : parseVal ((serializeMessage m0).length + 1) (serializeMessage m0) =
      some (Json.obj [(payloadKey, m0.payload), (topicKey, Json.str m0.topic)], []) := by
    have hflen : (serializeMessage m0).length + 1 =
        ((printFields [(topicKey, Json.str m0.topic), (payloadKey, m0.payload)]).length
          + 2) + 1 := by
      rw [hbs]
      simp
    rw [hflen, hbs]
    have hshape : printFields [(topicKey, Json.str m0.topic), (payloadKey, m0.payload)]
        ++ rbrace :: [] = qu :: (T ++ rbrace :: []) := by
      rw [hT]
      simp
    rw [hshape, parseVal_lbrace_step _ qu _ (by decide) (by decide), ← hshape]
    rw [(parse_print_main ((printFields [(topicKey, Json.str m0.topic),
        (payloadKey, m0.payload)]).length + 2)).2.2
      [(topicKey, Json.str m0.topic), (payloadKey, m0.payload)] [] []
      (by simp) hkvs (by omega)]
    rfl
  unfold parseDoc
  rw [hpv]
  rfl

theorem message_round_trip (m0 : Message) (h : wfJ m0.payload = true) :
    Message.from_bytes (serializeMessage m0) = .ok m0 := by
  unfold Message.from_bytes
  rw [parseDoc_serializeMessage m0 h]
  rfl

/-! ## Claim theorems -/

/-- C1: for every envelope built from a topic string and a representable
structured payload value (`wfJ`: the integer-number fragment with the
`BTreeMap` key invariant, which is every payload a `serde_json::Value` can
hold short of floats), `Message::to_bytes` succeeds and
`Message::from_bytes` on its output returns a message with the same topic
and the same payload: encode and decode are exact inverses on valid
input. -/
theorem claim_C1_round_trip (t : List Char) (p : Json) (h : wfJ p = true) :
    ∃ bs, Message.to_bytes ⟨t, p⟩ = .ok bs ∧ Message.from_bytes bs = .ok ⟨t, p⟩ :=
  ⟨serializeMessage ⟨t, p⟩, rfl, message_round_trip ⟨t, p⟩ h⟩

/-- C1 witness: the round trip at the spec §8 scenario message
`{topic: "task", payload: {"id": 7}}`. -/
theorem claim_C1_round_trip_witness :
    wfJ (Json.obj [(['i', 'd'], Json.num 7)]) = true ∧
    ∃ bs, Message.to_bytes ⟨['t', 'a', 's', 'k'], Json.obj [(['i', 'd'], Json.num 7)]⟩
        = .ok bs ∧
      Message.from_bytes bs =
        .ok ⟨['t', 'a', 's', 'k'], Json.obj [(['i', 'd'], Json.num 7)]⟩ :=
  ⟨by decide, claim_C1_round_trip ['t', 'a', 's', 'k'] (Json.obj [(['i', 'd'], Json.num 7)])
    (by decide)⟩

/-- C7: decode failure is always `SerializationError`: for every byte
sequence, `Message::from_bytes` either succeeds or returns
`OxideError::Serialization` — never any other error kind; and
`Message::payload_as` returns `OxideError::Serialization` whenever the
payload is structurally incompatible with the target type (its
deserializer yields nothing). -/
theorem claim_C7_serialization_errors :
    (∀ bs : List Char, (∃ m1, Message.from_bytes bs = .ok m1) ∨
      (∃ s, Message.from_bytes bs = .error (.Serialization s))) ∧
    (∀ (α : Type) (dec : Json → Option α) (m1 : Message), dec m1.payload = none →
      Message.payload_as dec m1 = .error (.Serialization "incompatible payload")) := by
  constructor
  · intro bs
    unfold Message.from_bytes
    split
    · exact Or.inr ⟨_, rfl⟩
    · split
      · exact Or.inl ⟨_, rfl⟩
      · exact Or.inr ⟨_, rfl⟩
    · exact Or.inr ⟨_, rfl⟩
  · intro α dec m1 h
    unfold Message.payload_as
    rw [h]

/-- C7 witness: truncated input `"nul"` fails as a `Serialization` error,
and `payload_as` with an integer decoder on a `null` payload fails as a
`Serialization` error. -/
theorem claim_C7_serialization_errors_witness :
    ((∃ m1, Message.from_bytes ['n', 'u', 'l'] = .ok m1) ∨
      (∃ s, Message.from_bytes ['n', 'u', 'l'] = .error (.Serialization s))) ∧
    Message.payload_as (fun j => match j with | Json.num n => some n | _ => none)
        ⟨['a'], Json.null⟩ = .error (.Serialization "incompatible payload") :=
  ⟨claim_C7_serialization_errors.1 ['n', 'u', 'l'],
    claim_C7_serialization_errors.2 Int
      (fun j => match j with | Json.num n => some n | _ => none) ⟨['a'], Json.null⟩ rfl⟩

/-- C9: encoding never fails — `Message::to_bytes` returns `Ok` for every
message — so the envelope send paths `push`, `publish`, and `reply` can
only fail at the transport-send step, as `OxideError::Send`; their
`Serialization` branch is unreachable. -/
theorem claim_C9_encode_total :
    (∀ m1 : Message, Message.to_bytes m1 = .ok (serializeMessage m1)) ∧
    (∀ s m1 ev, (Pusher.push s m1 ev).1 = .ok () ∨
      ∃ msg, (Pusher.push s m1 ev).1 = .error (.Send msg)) ∧
    (∀ s m1 ev, (Publisher.publish s m1 ev).1 = .ok () ∨
      ∃ msg, (Publisher.publish s m1 ev).1 = .error (.Send msg)) ∧
    (∀ s m1 ev, (Replier.reply s m1 ev).1 = .ok () ∨
      ∃ msg, (Replier.reply s m1 ev).1 = .error (.Send msg)) := by
  refine ⟨fun _ => rfl, ?_, ?_, ?_⟩ <;>
    (intro s m1 ev
     rcases hz : zmqSend s (serializeMessage m1) false ev with ⟨r, s1⟩
     cases r with
     | error e =>
       right
       refine ⟨e.msg, ?_⟩
       simp [Pusher.push, Publisher.publish, Replier.reply, Message.to_bytes, hz]
     | ok u =>
       left
       simp [Pusher.push, Publisher.publish, Replier.reply, Message.to_bytes, hz])

/-! ## Helper lemmas: transport evaluation -/

theorem setRcvtimeo_ok (s : Socket) (ms : Int) (h : -1 ≤ ms) :
    setRcvtimeo s ms = .ok { s with rcvtimeo := ms } := by
  unfold setRcvtimeo
  rw [if_pos h]

theorem zmqRecv_plain (s : Socket) (dw : Bool) (ev : RecvEvent)
    (hk1 : ¬ s.kind = .req) (hk2 : ¬ s.kind = .rep) :
    zmqRecv s dw ev =
      (match ev with
        | .timeout => (.error .eagain, s)
        | .fault e => (.error e, s)
        | .deliver bytes => (.ok bytes, s)) := by
  unfold zmqRecv
  rw [if_neg (by simp [hk1]), if_neg (by simp [hk2])]
  cases ev <;> simp [hk1, hk2]

theorem zmqRecv_rep_ready (s : Socket) (dw : Bool) (ev : RecvEvent)
    (hk : s.kind = .rep) (hp : s.phase = .ready) :
    zmqRecv s dw ev =
      (match ev with
        | .timeout => (.error .eagain, s)
        | .fault e => (.error e, s)
        | .deliver bytes => (.ok bytes, { s with phase := .awaitingSend })) := by
  unfold zmqRecv
  rw [if_neg (by simp [hk]), if_neg (by simp [hp])]
  cases ev <;> simp [hk]

theorem zmqRecv_req_awaiting (s : Socket) (dw : Bool) (ev : RecvEvent)
    (hk : s.kind = .req) (hp : s.phase = .awaitingReply) :
    zmqRecv s dw ev =
      (match ev with
        | .timeout => (.error .eagain, s)
        | .fault e => (.error e, s)
        | .deliver bytes => (.ok bytes, { s with phase := .ready })) := by
  unfold zmqRecv
  rw [if_neg (by simp [hp]), if_neg (by simp [hk])]
  cases ev <;> simp [hk]

theorem zmqSend_req_ready (s : Socket) (bytes : List Char)
    (hk : s.kind = .req) (hp : s.phase = .ready) :
    zmqSend s bytes false .accept =
      (.ok (), { s with pending := [],
                        outbox := s.outbox ++ [s.pending ++ [bytes]],
                        phase := .awaitingReply }) := by
  unfold zmqSend
  rw [if_neg (by simp [hp]), if_neg (by simp [hk])]
  simp [hk]

theorem zmqSend_req_awaiting (s : Socket) (bytes : List Char) (more : Bool)
    (ev : SendEvent) (hk : s.kind = .req) (hp : s.phase = .awaitingReply) :
    zmqSend s bytes more ev = (.error .efsm, s) := by
  unfold zmqSend
  rw [if_pos (by simp [hk, hp])]

theorem zmqSend_plain (s : Socket) (bytes : List Char) (more : Bool)
    (hk1 : ¬ s.kind = .req) (hk2 : ¬ s.kind = .rep) :
    zmqSend s bytes more .accept =
      (.ok (), if more then { s with pending := s.pending ++ [bytes] }
        else { s with pending := [], outbox := s.outbox ++ [s.pending ++ [bytes]] }) := by
  unfold zmqSend
  rw [if_neg (by simp [hk1]), if_neg (by simp [hk2])]
  cases more <;> simp [hk1, hk2]

theorem zmqSend_rep_awaitingSend (s : Socket) (bytes : List Char)
    (hk : s.kind = .rep) (hp : s.phase = .awaitingSend) :
    zmqSend s bytes false .accept =
      (.ok (), { s with pending := [],
                        outbox := s.outbox ++ [s.pending ++ [bytes]],
                        phase := .ready }) := by
  unfold zmqSend
  rw [if_neg (by simp [hk]), if_neg (by simp [hp])]
  simp [hk, show ¬ s.kind = .req by simp [hk]]

/-- C2: in every timeout/non-blocking receive variant (`pull_timeout`,
`try_pull`, `receive_timeout`, `try_receive`, `request_timeout`,
`Replier::receive_timeout`), absence of a message — EAGAIN from deadline
expiry or an empty queue — is returned as `Ok(None)`, while any other
transport receive failure is returned as `OxideError::Receive`; the two
outcomes are distinct constructors and never coincide. -/
theorem claim_C2_absence_vs_error :
    (∀ s ms, ¬ s.kind = .req → ¬ s.kind = .rep → -1 ≤ ms →
      (Puller.pull_timeout s ms .timeout = (.ok none, { s with rcvtimeo := ms }) ∧
       ∀ e, ¬ e = ZmqErr.eagain → Puller.pull_timeout s ms (.fault e) =
         (.error (.Receive e.msg), { s with rcvtimeo := ms }))) ∧
    (∀ s, ¬ s.kind = .req → ¬ s.kind = .rep →
      (Puller.try_pull s .timeout = (.ok none, s) ∧
       ∀ e, ¬ e = ZmqErr.eagain → Puller.try_pull s (.fault e) =
         (.error (.Receive e.msg), s))) ∧
    (∀ s ms, ¬ s.kind = .req → ¬ s.kind = .rep → -1 ≤ ms →
      (Subscriber.receive_timeout s ms .timeout = (.ok none, { s with rcvtimeo := ms }) ∧
       ∀ e, ¬ e = ZmqErr.eagain → Subscriber.receive_timeout s ms (.fault e) =
         (.error (.Receive e.msg), { s with rcvtimeo := ms }))) ∧
    (∀ s, ¬ s.kind = .req → ¬ s.kind = .rep →
      (Subscriber.try_receive s .timeout = (.ok none, s) ∧
       ∀ e, ¬ e = ZmqErr.eagain → Subscriber.try_receive s (.fault e) =
         (.error (.Receive e.msg), s))) ∧
    (∀ s ms, s.kind = .rep → s.phase = .ready → -1 ≤ ms →
      (Replier.receive_timeout s ms .timeout = (.ok none, { s with rcvtimeo := ms }) ∧
       ∀ e, ¬ e = ZmqErr.eagain → Replier.receive_timeout s ms (.fault e) =
         (.error (.Receive e.msg), { s with rcvtimeo := ms }))) ∧
    (∀ s m1 ms, s.kind = .req → s.phase = .ready → -1 ≤ ms →
      ((Requester.request_timeout s m1 ms .accept .timeout).1 = .ok none ∧
       ∀ e, ¬ e = ZmqErr.eagain →
         (Requester.request_timeout s m1 ms .accept (.fault e)).1 =
           .error (.Receive e.msg))) ∧
    (∀ (o : Option Message) (er : OxideError),
      (Except.ok o : Except OxideError (Option Message)) ≠ .error er) := by
  refine ⟨?_, ?_, ?_, ?_, ?_, ?_, ?_⟩
  · intro s ms hk1 hk2 hms
    constructor
    · simp only [Puller.pull_timeout, setRcvtimeo_ok s ms hms]
      rw [zmqRecv_plain { s with rcvtimeo := ms } false _ hk1 hk2]
    · intro e hne
      simp only [Puller.pull_timeout, setRcvtimeo_ok s ms hms]
      rw [zmqRecv_plain { s with rcvtimeo := ms } false _ hk1 hk2]
      cases e with
      | eagain => exact absurd rfl hne
      | efsm => rfl
      | einval => rfl
      | other c => rfl
  · intro s hk1 hk2
    constructor
    · simp only [Puller.try_pull]
      rw [zmqRecv_plain s true _ hk1 hk2]
    · intro e hne
      simp only [Puller.try_pull]
      rw [zmqRecv_plain s true _ hk1 hk2]
      cases e with
      | eagain => exact absurd rfl hne
      | efsm => rfl
      | einval => rfl
      | other c => rfl
  · intro s ms hk1 hk2 hms
    constructor
    · simp only [Subscriber.receive_timeout, setRcvtimeo_ok s ms hms]
      rw [zmqRecv_plain { s with rcvtimeo := ms } false _ hk1 hk2]
    · intro e hne
      simp only [Subscriber.receive_timeout, setRcvtimeo_ok s ms hms]
      rw [zmqRecv_plain { s with rcvtimeo := ms } false _ hk1 hk2]
      cases e with
      | eagain => exact absurd rfl hne
      | efsm => rfl
      | einval => rfl
      | other c => rfl
  · intro s hk1 hk2
    constructor
    · simp only [Subscriber.try_receive]
      rw [zmqRecv_plain s true _ hk1 hk2]
    · intro e hne
      simp only [Subscriber.try_receive]
      rw [zmqRecv_plain s true _ hk1 hk2]
      cases e with
      | eagain => exact absurd rfl hne
      | efsm => rfl
      | einval => rfl
      | other c => rfl
  · intro s ms hk hp hms
    constructor
    · simp only [Replier.receive_timeout, setRcvtimeo_ok s ms hms]
      rw [zmqRecv_rep_ready { s with rcvtimeo := ms } false _ hk hp]
    · intro e hne
      simp only [Replier.receive_timeout, setRcvtimeo_ok s ms hms]
      rw [zmqRecv_rep_ready { s with rcvtimeo := ms } false _ hk hp]
      cases e with
      | eagain => exact absurd rfl hne
      | efsm => rfl
      | einval => rfl
      | other c => rfl
  · intro s m1 ms hk hp hms
    constructor
    · simp only [Requester.request_timeout, Message.to_bytes,
        zmqSend_req_ready s (serializeMessage m1) hk hp, setRcvtimeo_ok _ ms hms]
      rw [zmqRecv_req_awaiting { s with rcvtimeo := ms, phase := .awaitingReply, pending := [], outbox := s.outbox ++ [s.pending ++ [serializeMessage m1]] } false _ hk rfl]
    · intro e hne
      simp only [Requester.request_timeout, Message.to_bytes,
        zmqSend_req_ready s (serializeMessage m1) hk hp, setRcvtimeo_ok _ ms hms]
      rw [zmqRecv_req_awaiting { s with rcvtimeo := ms, phase := .awaitingReply, pending := [], outbox := s.outbox ++ [s.pending ++ [serializeMessage m1]] } false _ hk rfl]
      cases e with
      | eagain => exact absurd rfl hne
      | efsm => rfl
      | einval => rfl
      | other c => rfl
  · intro o er h
    exact Except.noConfusion h

/-- C2 witness: a fresh PULL socket, deadline 100ms: expiry yields
`Ok(None)`; a non-EAGAIN transport fault yields `OxideError::Receive`. -/
theorem claim_C2_absence_vs_error_witness :
    Puller.pull_timeout ⟨.pull, -1, [], .ready, [], []⟩ 100 .timeout =
      (.ok none, ⟨.pull, 100, [], .ready, [], []⟩) ∧
    Puller.pull_timeout ⟨.pull, -1, [], .ready, [], []⟩ 100 (.fault (.other 5)) =
      (.error (.Receive (ZmqErr.other 5).msg), ⟨.pull, 100, [], .ready, [], []⟩) :=
  ⟨(claim_C2_absence_vs_error.1 ⟨.pull, -1, [], .ready, [], []⟩ 100 (by decide)
      (by decide) (by decide)).1,
   (claim_C2_absence_vs_error.1 ⟨.pull, -1, [], .ready, [], []⟩ 100 (by decide)
      (by decide) (by decide)).2 (.other 5) (by decide)⟩

/-- C8 (implicit): the blocking receives (`pull`, `Subscriber::receive`,
`Replier::receive`, the receive half of `request`) map every transport
receive failure, EAGAIN included, to `OxideError::Receive`; so with a
finite receive deadline previously configured on the socket, a blocking
call whose deadline expires returns an error, not an absence. -/
theorem claim_C8_blocking_timeout_is_error :
    (∀ s, ¬ s.kind = .req → ¬ s.kind = .rep → 0 ≤ s.rcvtimeo →
      Puller.pull s .timeout = (.error (.Receive ZmqErr.eagain.msg), s)) ∧
    (∀ s, ¬ s.kind = .req → ¬ s.kind = .rep → 0 ≤ s.rcvtimeo →
      Subscriber.receive s .timeout = (.error (.Receive ZmqErr.eagain.msg), s)) ∧
    (∀ s, s.kind = .rep → s.phase = .ready → 0 ≤ s.rcvtimeo →
      Replier.receive s .timeout = (.error (.Receive ZmqErr.eagain.msg), s)) ∧
    (∀ s m1, s.kind = .req → s.phase = .ready → 0 ≤ s.rcvtimeo →
      (Requester.request s m1 .accept .timeout).1 =
        .error (.Receive ZmqErr.eagain.msg)) := by
  refine ⟨?_, ?_, ?_, ?_⟩
  · intro s hk1 hk2 _
    simp only [Puller.pull]
    rw [zmqRecv_plain s false _ hk1 hk2]
  · intro s hk1 hk2 _
    simp only [Subscriber.receive]
    rw [zmqRecv_plain s false _ hk1 hk2]
  · intro s hk hp _
    simp only [Replier.receive]
    rw [zmqRecv_rep_ready s false _ hk hp]
  · intro s m1 hk hp _
    simp only [Requester.request, Message.to_bytes,
      zmqSend_req_ready s (serializeMessage m1) hk hp]
    rw [zmqRecv_req_awaiting { s with phase := .awaitingReply, pending := [], outbox := s.outbox ++ [s.pending ++ [serializeMessage m1]] } false _ hk rfl]

/-- C8 witness: a PULL socket carrying a leftover 100ms deadline (as
`pull_timeout` leaves it): a blocking `pull` that hits the deadline
returns `OxideError::Receive`, not `None`. -/
theorem claim_C8_blocking_timeout_is_error_witness :
    Puller.pull ⟨.pull, 100, [], .ready, [], []⟩ .timeout =
      (.error (.Receive ZmqErr.eagain.msg), ⟨.pull, 100, [], .ready, [], []⟩) :=
  claim_C8_blocking_timeout_is_error.1 ⟨.pull, 100, [], .ready, [], []⟩
    (by decide) (by decide) (by decide)

/-- C6: if `request_timeout` expires with no reply (`Ok(None)`), the
Requester socket is left in the transport's awaiting-reply state, and
every subsequent `request` on that handle fails (`OxideError::Send`, from
the transport's EFSM strict-alternation check) leaving the state
unchanged — so it keeps failing until the handle is recreated; nothing
recreates the socket transparently. -/
theorem claim_C6_awaiting_after_timeout :
    (∀ s m1 ms, s.kind = .req → s.phase = .ready → -1 ≤ ms →
      Requester.request_timeout s m1 ms .accept .timeout =
        (.ok none, { s with rcvtimeo := ms, phase := .awaitingReply, pending := [], outbox := s.outbox ++ [s.pending ++ [serializeMessage m1]] })) ∧
    (∀ s m1 sev rev, s.kind = .req → s.phase = .awaitingReply →
      Requester.request s m1 sev rev = (.error (.Send ZmqErr.efsm.msg), s)) := by
  constructor
  · intro s m1 ms hk hp hms
    simp only [Requester.request_timeout, Message.to_bytes,
      zmqSend_req_ready s (serializeMessage m1) hk hp, setRcvtimeo_ok _ ms hms]
    rw [zmqRecv_req_awaiting { s with rcvtimeo := ms, phase := .awaitingReply, pending := [], outbox := s.outbox ++ [s.pending ++ [serializeMessage m1]] } false _ hk rfl]
  · intro s m1 sev rev hk hp
    simp only [Requester.request, Message.to_bytes]
    rw [zmqSend_req_awaiting s (serializeMessage m1) false sev hk hp]

/-- C6 witness: a fresh REQ socket: `request_timeout(…, 200)` expiring
yields `Ok(None)` and leaves the socket awaiting a reply; a subsequent
`request` on that socket fails with `OxideError::Send` and changes
nothing. -/
theorem claim_C6_awaiting_after_timeout_witness :
    Requester.request_timeout ⟨.req, -1, [], .ready, [], []⟩ ⟨['p'], Json.null⟩ 200
        .accept .timeout =
      (.ok none, ⟨.req, 200, [], .awaitingReply, [],
        [[serializeMessage ⟨['p'], Json.null⟩]]⟩) ∧
    Requester.request ⟨.req, 200, [], .awaitingReply, [],
        [[serializeMessage ⟨['p'], Json.null⟩]]⟩ ⟨['p'], Json.null⟩ .accept .timeout =
      (.error (.Send ZmqErr.efsm.msg), ⟨.req, 200, [], .awaitingReply, [],
        [[serializeMessage ⟨['p'], Json.null⟩]]⟩) :=
  ⟨claim_C6_awaiting_after_timeout.1 ⟨.req, -1, [], .ready, [], []⟩ ⟨['p'], Json.null⟩
      200 (by decide) (by decide) (by decide),
   claim_C6_awaiting_after_timeout.2 _ ⟨['p'], Json.null⟩ .accept .timeout
      (by decide) (by decide)⟩

/-- C10 (implicit): `request_timeout` is not atomic on error — it sends
first and configures the deadline afterwards, so an invalid timeout value
returns `OxideError::Configuration` even though the request has already
gone out: the socket is left awaiting a reply with the message in its
outbox. -/
theorem claim_C10_nonatomic_config_error :
    ∀ s m1 ms (rev : RecvEvent), s.kind = .req → s.phase = .ready → ms < -1 →
      Requester.request_timeout s m1 ms .accept rev =
        (.error (.Configuration ZmqErr.einval.msg),
          { s with phase := .awaitingReply, pending := [], outbox := s.outbox ++ [s.pending ++ [serializeMessage m1]] }) := by
  intro s m1 ms rev hk hp hms
  simp only [Requester.request_timeout, Message.to_bytes,
    zmqSend_req_ready s (serializeMessage m1) hk hp]
  rw [show setRcvtimeo { s with phase := Phase.awaitingReply, pending := [], outbox := s.outbox ++ [s.pending ++ [serializeMessage m1]] } ms = .error .einval by
    unfold setRcvtimeo
    rw [if_neg (by omega)]]

/-- C10 witness: a fresh REQ socket, `request_timeout` with the invalid
deadline -2: `Configuration` error returned, message already sent. -/
theorem claim_C10_nonatomic_config_error_witness :
    Requester.request_timeout ⟨.req, -1, [], .ready, [], []⟩ ⟨['p'], Json.null⟩ (-2)
        .accept .timeout =
      (.error (.Configuration ZmqErr.einval.msg),
        ⟨.req, -1, [], .awaitingReply, [], [[serializeMessage ⟨['p'], Json.null⟩]]⟩) :=
  claim_C10_nonatomic_config_error ⟨.req, -1, [], .ready, [], []⟩ ⟨['p'], Json.null⟩
    (-2) .timeout (by decide) (by decide) (by decide)

/-- C5: wire format — every envelope-path send (`push`, `publish`,
`request`, `reply`) hands the transport exactly one complete message of
exactly one frame, the serde_json document of the envelope; that document
parses back to an object with exactly the two top-level fields `payload`
and `topic` (in the parser's key order). `publish_raw(topic, data)`
instead sends one message of exactly two frames: the raw topic bytes,
then the raw payload bytes, with no envelope encoding. -/
theorem claim_C5_wire_format :
    (∀ s m1, ¬ s.kind = .req → ¬ s.kind = .rep → s.pending = [] →
      Pusher.push s m1 .accept =
        (.ok (), { s with pending := [], outbox := s.outbox ++ [[serializeMessage m1]] })) ∧
    (∀ s m1, ¬ s.kind = .req → ¬ s.kind = .rep → s.pending = [] →
      Publisher.publish s m1 .accept =
        (.ok (), { s with pending := [], outbox := s.outbox ++ [[serializeMessage m1]] })) ∧
    (∀ s m1 (rev : RecvEvent), s.kind = .req → s.phase = .ready → s.pending = [] →
      (Requester.request s m1 .accept rev).2.outbox =
        s.outbox ++ [[serializeMessage m1]]) ∧
    (∀ s m1, s.kind = .rep → s.phase = .awaitingSend → s.pending = [] →
      Replier.reply s m1 .accept =
        (.ok (), { s with pending := [], outbox := s.outbox ++ [[serializeMessage m1]], phase := .ready })) ∧
    (∀ m1 : Message, wfJ m1.payload = true →
      parseDoc (serializeMessage m1) =
        some (.obj [(payloadKey, m1.payload), (topicKey, .str m1.topic)])) ∧
    (∀ s t d, ¬ s.kind = .req → ¬ s.kind = .rep → s.pending = [] →
      Publisher.publish_raw s t d .accept .accept =
        (.ok (), { s with pending := [], outbox := s.outbox ++ [[t, d]] })) := by
  refine ⟨?_, ?_, ?_, ?_, ?_, ?_⟩
  · intro s m1 hk1 hk2 hpend
    simp only [Pusher.push, Message.to_bytes]
    rw [zmqSend_plain s (serializeMessage m1) false hk1 hk2]
    simp [hpend]
  · intro s m1 hk1 hk2 hpend
    simp only [Publisher.publish, Message.to_bytes]
    rw [zmqSend_plain s (serializeMessage m1) false hk1 hk2]
    simp [hpend]
  · intro s m1 rev hk hp hpend
    simp only [Requester.request, Message.to_bytes,
      zmqSend_req_ready s (serializeMessage m1) hk hp]
    rw [zmqRecv_req_awaiting { s with phase := .awaitingReply, pending := [], outbox := s.outbox ++ [s.pending ++ [serializeMessage m1]] } false _ hk rfl]
    cases rev with
    | timeout => simp [hpend]
    | fault e => cases e <;> simp [hpend]
    | deliver rb =>
      rcases hfb : Message.from_bytes rb with e | mr <;> simp [hfb, hpend]
  · intro s m1 hk hp hpend
    simp only [Replier.reply, Message.to_bytes]
    rw [zmqSend_rep_awaitingSend s (serializeMessage m1) hk hp]
    simp [hpend]
  · intro m1 h
    exact parseDoc_serializeMessage m1 h
  · intro s t d hk1 hk2 hpend
    simp only [Publisher.publish_raw, zmqSend_plain s t true hk1 hk2, if_true]
    rw [zmqSend_plain { s with pending := s.pending ++ [t] } d false hk1 hk2]
    simp [hpend]

/-- C5 witness: a fresh PUB socket: `publish` of `{topic: "a", payload:
null}` enqueues one single-frame message whose frame parses back to the
two-field document, and `publish_raw("x", "pq")` enqueues one two-frame
message. -/
theorem claim_C5_wire_format_witness :
    Publisher.publish ⟨.pubk, -1, [], .ready, [], []⟩ ⟨['a'], Json.null⟩ .accept =
      (.ok (), ⟨.pubk, -1, [], .ready, [],
        [[serializeMessage ⟨['a'], Json.null⟩]]⟩) ∧
    parseDoc (serializeMessage ⟨['a'], Json.null⟩) =
      some (.obj [(payloadKey, Json.null), (topicKey, Json.str ['a'])]) ∧
    Publisher.publish_raw ⟨.pubk, -1, [], .ready, [], []⟩ ['x'] ['p', 'q']
        .accept .accept =
      (.ok (), ⟨.pubk, -1, [], .ready, [], [[['x'], ['p', 'q']]]⟩) :=
  ⟨claim_C5_wire_format.1 ⟨.pubk, -1, [], .ready, [], []⟩ ⟨['a'], Json.null⟩
      (by decide) (by decide) rfl,
   claim_C5_wire_format.2.2.2.2.1 ⟨['a'], Json.null⟩ (by decide),
   claim_C5_wire_format.2.2.2.2.2 ⟨.pubk, -1, [], .ready, [], []⟩ ['x'] ['p', 'q']
      (by decide) (by decide) rfl⟩

/-- C3 counterexample: the claim "timeout variants leave the handle's
receive-timeout configuration and all other handle state unchanged" fails
at a fresh PULL socket (rcvtimeo -1): after `pull_timeout(100)` expires,
the socket's receive-timeout option is 100, not -1 — the handle state
changed. -/
theorem claim_C3_counterexample :
    ((Puller.pull_timeout ⟨.pull, -1, [], .ready, [], []⟩ 100 .timeout).2).rcvtimeo
      = 100 ∧
    (⟨.pull, -1, [], .ready, [], []⟩ : Socket).rcvtimeo = -1 ∧
    ¬ ((Puller.pull_timeout ⟨.pull, -1, [], .ready, [], []⟩ 100 .timeout).2 =
        ⟨.pull, -1, [], .ready, [], []⟩) := by
  refine ⟨rfl, rfl, fun h => ?_⟩
  have h2 := congrArg Socket.rcvtimeo h
  rw [show ((Puller.pull_timeout ⟨.pull, -1, [], .ready, [], []⟩ 100
    .timeout).2).rcvtimeo = 100 from rfl] at h2
  exact absurd h2 (by decide)

/-- C3 amended: a timeout variant's deadline is configured on the socket
and persists after the call: `pull_timeout` / `receive_timeout` leave the
handle exactly as before except that the receive-timeout option now holds
the deadline just used, so later blocking receives run under the last
deadline set rather than under no deadline. -/
theorem claim_C3_amended_deadline_persists :
    (∀ s ms, -1 ≤ ms →
      (Puller.pull_timeout s ms .timeout).2 = { s with rcvtimeo := ms }) ∧
    (∀ s ms, -1 ≤ ms →
      (Subscriber.receive_timeout s ms .timeout).2 = { s with rcvtimeo := ms }) ∧
    (∀ s ms, -1 ≤ ms →
      (Replier.receive_timeout s ms .timeout).2 = { s with rcvtimeo := ms }) := by
  refine ⟨?_, ?_, ?_⟩ <;>
    (intro s ms hms
     simp only [Puller.pull_timeout, Subscriber.receive_timeout,
       Replier.receive_timeout, setRcvtimeo_ok s ms hms]
     unfold zmqRecv
     split_ifs <;> rfl)

/-- C3 amended witness: a fresh PULL socket after `pull_timeout(100)`
expiry carries rcvtimeo 100 with everything else unchanged. -/
theorem claim_C3_amended_deadline_persists_witness :
    (Puller.pull_timeout ⟨.pull, -1, [], .ready, [], []⟩ 100 .timeout).2 =
      ⟨.pull, 100, [], .ready, [], []⟩ :=
  claim_C3_amended_deadline_persists.1 ⟨.pull, -1, [], .ready, [], []⟩ 100 (by decide)

/-- C4 counterexample: the claim "a subscriber whose only filter equals
the message's literal topic never receives `publish()` messages" fails at
topic `"{"`: the published single frame is the serde_json document, which
begins with the byte `{`, so the filter `"{"` (non-empty, equal to the
literal topic) is a prefix of the frame and the message IS delivered. -/
theorem claim_C4_counterexample :
    ([lbrace] : List Char) ≠ [] ∧
    (Publisher.publish ⟨.pubk, -1, [], .ready, [], []⟩ ⟨[lbrace], Json.null⟩
      .accept).2.outbox = [[serializeMessage ⟨[lbrace], Json.null⟩]] ∧
    subMatches ⟨.subk, -1, [[lbrace]], .ready, [], []⟩
      [serializeMessage ⟨[lbrace], Json.null⟩] = true := by
  refine ⟨by decide, rfl, by decide⟩

/-- C4 amended: prefix-filter asymmetry, for topics not starting with the
byte `{`: a Subscriber whose only filter is a non-empty prefix equal to
the message's literal topic never matches a `publish()` frame (the frame
starts with `{`, the topic does not), while a `publish_raw()` message
whose topic frame extends the filter does match; the empty-string filter
matches messages from both paths. -/
theorem claim_C4_amended_filter_asymmetry :
    (∀ (sub : Socket) (m1 : Message) (c : Char) (t' : List Char),
      sub.subs = [m1.topic] → m1.topic = c :: t' → ¬ c = lbrace →
      subMatches sub [serializeMessage m1] = false) ∧
    (∀ (sub : Socket) (t topicFrame data : List Char), sub.subs = [t] →
      t.isPrefixOf topicFrame = true →
      subMatches sub [topicFrame, data] = true) ∧
    (∀ (sub : Socket) (msg : List (List Char)), sub.subs = [[]] →
      subMatches sub msg = true) := by
  refine ⟨?_, ?_, ?_⟩
  · intro sub m1 c t' hsubs htop hc
    obtain ⟨R, hR⟩ : ∃ R, serializeMessage m1 = lbrace :: R :=
      ⟨printFields [(topicKey, Json.str m1.topic), (payloadKey, m1.payload)] ++ [rbrace],
        by simp [serializeMessage, printJson]⟩
    simp [subMatches, hsubs, hR, htop, List.isPrefixOf, hc]
  · intro sub t topicFrame data hsubs hpre
    simp [subMatches, hsubs, hpre]
  · intro sub msg hsubs
    cases msg with
    | nil => simp [subMatches, hsubs, List.isPrefixOf]
    | cons f fs => simp [subMatches, hsubs, List.isPrefixOf]

/-- C4 amended witness: filter "a" on topic "a": the `publish` frame is
not matched; a raw message with topic frame "ab" is matched; the empty
filter matches an arbitrary frame. -/
theorem claim_C4_amended_filter_asymmetry_witness :
    subMatches ⟨.subk, -1, [['a']], .ready, [], []⟩
      [serializeMessage ⟨['a'], Json.null⟩] = false ∧
    subMatches ⟨.subk, -1, [['a']], .ready, [], []⟩ [['a', 'b'], ['d']] = true ∧
    subMatches ⟨.subk, -1, [[]], .ready, [], []⟩ [[qu]] = true :=
  ⟨claim_C4_amended_filter_asymmetry.1 ⟨.subk, -1, [['a']], .ready, [], []⟩
      ⟨['a'], Json.null⟩ 'a' [] rfl rfl (by decide),
   claim_C4_amended_filter_asymmetry.2.1 ⟨.subk, -1, [['a']], .ready, [], []⟩
      ['a'] ['a', 'b'] ['d'] rfl (by decide),
   claim_C4_amended_filter_asymmetry.2.2 ⟨.subk, -1, [[]], .ready, [], []⟩ [[qu]] rfl⟩
